import Mathlib

/-!
Verification development for the gym membership system (`final.c`).

The C program is shallowly embedded here:

* C strings (`char` arrays) are modelled as `List Char`; the file is a
  list of lines, each line a `List Char` (with the trailing newline that
  `fgets`/`trim_newline` add and strip kept out of the model).
* Machine integers (`int`, `long`) are modelled as `Int`; C's truncating
  division (used in the leap-year count on nonnegative operands) is
  `Int.div`, and `%` comparisons against `0` are divisibility tests, for
  which C's truncating remainder and Lean's `%` agree.
* The global linked list (`head`/`tail`/`member_count`/`next_card_id`)
  is a `Store` record holding the node list in insertion order;
  `member_count` is the list length, which the C code keeps in sync.
* The host clock (`getSystemDate`) is a `today : List Char` parameter.
* The file system seen by `saveToFile` is a pair of optional file
  contents (the destination `members.txt` and the staging `members.tmp`),
  and the two fallible calls (`fopen` of the staging file, `rename`)
  are Boolean failure oracles.
-/

namespace Gym

/-- Model of a C `char` buffer's contents. -/
abbrev CStr := List Char

/- =========================================================
   Numeric text: the `atoi`/`atol` family and `fprintf %d`/`%ld`
   ========================================================= -/

/-- Characters that C's `isspace` accepts (relevant to `atoi`). -/
def isSpaceChar (c : Char) : Bool :=
  c = ' ' ∨ c = '\t' ∨ c = '\n' ∨ c = '\x0b' ∨ c = '\x0c' ∨ c = '\r'

/-- Value of a decimal digit character. -/
def digitVal (c : Char) : Nat := c.toNat - 48

/-- Accumulate the leading decimal digits of a character list. -/
def digitsFold (s : CStr) : Nat :=
  (s.takeWhile Char.isDigit).foldl (fun a c => 10 * a + digitVal c) 0

/-- Model of C `atoi`: skip whitespace, optional sign, leading digits;
no digits gives 0. -/
def atoi (s : CStr) : Int :=
  match s.dropWhile isSpaceChar with
  | [] => 0
  | c :: rest =>
    if c = '-' then -(digitsFold rest : Int)
    else if c = '+' then (digitsFold rest : Int)
    else (digitsFold (c :: rest) : Int)

/-- Model of C `atol` (identical semantics on our unbounded integers). -/
def atol (s : CStr) : Int := atoi s

/-- Big-endian decimal digits of `n`, fuelled for structural recursion
(`fuel ≥ n` suffices). -/
def natCharsAux : Nat → Nat → List Char
  | 0, _ => []
  | fuel + 1, n => if n = 0 then [] else natCharsAux fuel (n / 10) ++ [Nat.digitChar (n % 10)]

/-- Decimal rendering of a natural number, as `fprintf %d` produces. -/
def natChars (n : Nat) : List Char :=
  if n = 0 then ['0'] else natCharsAux n n

/-- Decimal rendering of an integer, as `fprintf %d`/`%ld` produce. -/
def intChars (i : Int) : List Char :=
  if i < 0 then '-' :: natChars (-i).toNat else natChars i.toNat

/- =========================================================
   `strtok(line, "|")`: maximal nonempty tokens between delimiters
   ========================================================= -/

/-- Tail of `splitPipe`: `acc` is the current token, reversed. -/
def splitPipeAux : CStr → List Char → List CStr
  | [], acc => if acc = [] then [] else [acc.reverse]
  | c :: rest, acc =>
    if c = '|' then
      if acc = [] then splitPipeAux rest [] else acc.reverse :: splitPipeAux rest []
    else splitPipeAux rest (c :: acc)

/-- The token sequence produced by repeated `strtok(_, "|")` on a line:
maximal nonempty runs of non-`'|'` characters. -/
def splitPipe (s : CStr) : List CStr := splitPipeAux s []

/- =========================================================
   Calendar Engine (`isLeapYear`, `daysInMonth`, `dateToDays`,
   `getDurationDays`), from final.c lines 157-200
   ========================================================= -/

/-- `isLeapYear` from the source. C's truncating `%` and Lean's `%`
agree on `== 0` tests (both are divisibility). -/
def isLeapYear (y : Int) : Bool :=
  (y % 4 == 0 && y % 100 != 0) || (y % 400 == 0)

/-- `daysInMonth` from the source: the `mdays` table plus the February
leap-year correction.  Months outside 1..12 are never looked up by the
program (callers bound-check first); the table's 0 entry is used as the
default. -/
def daysInMonth (y m : Int) : Int :=
  if m = 2 then (if isLeapYear y then 29 else 28)
  else if m = 1 ∨ m = 3 ∨ m = 5 ∨ m = 7 ∨ m = 8 ∨ m = 10 ∨ m = 12 then 31
  else if m = 4 ∨ m = 6 ∨ m = 9 ∨ m = 11 then 30
  else 0

/-- `y1/4 - y1/100 + y1/400` with C's truncating division. -/
def leapCountTo (y1 : Int) : Int :=
  Int.tdiv y1 4 - Int.tdiv y1 100 + Int.tdiv y1 400

/-- The `for (i = 1; i < m; i++) days += daysInMonth(y, i)` loop:
`monthDaysSum y k` is the davs of months `1..k`. -/
def monthDaysSum (y : Int) : Nat → Int
  | 0 => 0
  | k + 1 => monthDaysSum y k + daysInMonth y (k + 1)

/-- The arithmetic part of `dateToDays`, applied once `sscanf` has
produced the `y-m-d` triple. -/
def dateCalc (y m d : Int) : Int :=
  if m < 1 ∨ 12 < m then 0
  else if d < 1 ∨ daysInMonth y m < d then 0
  else y * 365 + leapCountTo (y - 1) + monthDaysSum y (m.toNat - 1) + d

/-- Leading decimal number for `sscanf %d`: skip whitespace, optional
sign, at least one digit; returns the value and the rest of the input. -/
def parseIntTok (s : CStr) : Option (Int × CStr) :=
  match s.dropWhile isSpaceChar with
  | [] => none
  | c :: rest =>
    if c = '-' then
      if rest.takeWhile Char.isDigit = [] then none
      else some (-(digitsFold rest : Int), rest.dropWhile Char.isDigit)
    else if c = '+' then
      if rest.takeWhile Char.isDigit = [] then none
      else some ((digitsFold rest : Int), rest.dropWhile Char.isDigit)
    else
      if (c :: rest).takeWhile Char.isDigit = [] then none
      else some ((digitsFold (c :: rest) : Int), (c :: rest).dropWhile Char.isDigit)

/-- Model of `sscanf(date, "%d-%d-%d", &y, &m, &d) == 3`. -/
def parseYMD (s : CStr) : Option (Int × Int × Int) :=
  match parseIntTok s with
  | none => none
  | some (y, r1) =>
    match r1 with
    | '-' :: r2 =>
      match parseIntTok r2 with
      | none => none
      | some (m, r3) =>
        match r3 with
        | '-' :: r4 =>
          match parseIntTok r4 with
          | none => none
          | some (d, _) => some (y, m, d)
        | _ => none
    | _ => none

/-- `dateToDays` from the source: parse, validate, accumulate. -/
def dateToDays (s : CStr) : Int :=
  match parseYMD s with
  | none => 0
  | some (y, m, d) => dateCalc y m d

/-- The membership-type tokens (the UTF-8 strings in the source). -/
def typeMonthly : CStr := ['月', '卡']

/-- Quarterly membership token. -/
def typeQuarterly : CStr := ['季', '卡']

/-- Yearly membership token. -/
def typeYearly : CStr := ['年', '卡']

/-- Gender token 男. -/
def maleStr : CStr := ['男']

/-- Gender token 女. -/
def femaleStr : CStr := ['女']

/-- `getDurationDays` from the source. -/
def getDurationDays (t : CStr) : Int :=
  if t = typeMonthly then 30
  else if t = typeQuarterly then 90
  else if t = typeYearly then 365
  else 0

/- =========================================================
   Field validators (`isValidAge`, `isValidPhone`)
   ========================================================= -/

/-- `isValidAge` from the source. -/
def isValidAge (age : Int) : Bool := 18 ≤ age && age ≤ 80

/-- `isValidPhone` from the source: exactly 11 characters, all ASCII
digits. -/
def isValidPhone (p : CStr) : Bool :=
  p.length = 11 && p.all fun c => '0' ≤ c && c ≤ '9'

/- =========================================================
   Data model: `Member`, the linked-list node, the global store
   ========================================================= -/

/-- The `Member` struct from the source. -/
structure Member where
  card_id : Int
  name : CStr
  gender : CStr
  age : Int
  phone : CStr
  join_date : CStr
  membership_type : CStr
  is_active : Int
  deriving DecidableEq, Repr

/-- The linked-list `Node`: a member plus its `bonus_days`. -/
structure MNode where
  data : Member
  bonus_days : Int
  deriving DecidableEq, Repr

/-- The global state: the node list in insertion order
(`head`/`tail`/`member_count`) and the `next_card_id` counter.
`member_count` is the list length. -/
structure Store where
  members : List MNode
  next_card_id : Int
  deriving DecidableEq, Repr

/-- `MAX_MEMBERS` from the source. -/
def MAX_MEMBERS : Nat := 100

/-- `calcExpireDays`: join ordinal + plan duration + bonus days. -/
def calcExpireDays (n : MNode) : Int :=
  dateToDays n.data.join_date + getDurationDays n.data.membership_type + n.bonus_days

/-- `findByCardID`: first node with the given id. -/
def findByCardID (id : Int) : List MNode → Option MNode
  | [] => none
  | n :: rest => if n.data.card_id = id then some n else findByCardID id rest

/-- In-place mutation of the first node with the given id (the C code
finds a node pointer and writes through it). -/
def updateFirst (id : Int) (f : MNode → MNode) : List MNode → List MNode
  | [] => []
  | n :: rest => if n.data.card_id = id then f n :: rest else n :: updateFirst id f rest

/-- Unlinking of the first node with the given id (`deleteExpiredMember`'s
`prev`/`cur` walk). -/
def removeFirst (id : Int) : List MNode → List MNode
  | [] => []
  | n :: rest => if n.data.card_id = id then rest else n :: removeFirst id rest

/- =========================================================
   Expiration Synchronizer (`syncAutoExpire`), final.c lines 342-357
   ========================================================= -/

/-- One record's treatment by `syncAutoExpire`: an active record whose
expire day has passed is marked inactive; nothing else changes. -/
def syncOne (cur : Int) (n : MNode) : MNode :=
  if n.data.is_active = 1 ∧ calcExpireDays n - cur < 0 then
    ⟨{ n.data with is_active := 0 }, n.bonus_days⟩
  else n

/-- `syncAutoExpire`: the pass over the whole list.  (The C early
return on an empty list agrees with mapping over `[]`.) -/
def syncAutoExpire (today : CStr) (ms : List MNode) : List MNode :=
  ms.map (syncOne (dateToDays today))

/- =========================================================
   Membership Store operations (`addMember`, `updateMemberPhone`,
   `updateMemberStatus`, `deleteExpiredMember`, `renewMember`)
   ========================================================= -/

/-- `addMember`, at the store level: the console input loops only ever
hand the core a gender in {男, 女}, an age in 18..80, an 11-digit
phone, and one of the three membership types — those facts appear as
hypotheses of the theorems.  The join date is `today` (the system
clock) and the card id is the `next_card_id` counter.  The write-back
to disk (`saveToFile`) is composed separately. -/
def addMember (name gender : CStr) (age : Int) (phone : CStr) (today : CStr)
    (mtype : CStr) (st : Store) : Store × Option Int :=
  if st.members.length ≥ MAX_MEMBERS then (st, none)
  else
    ({ members := st.members ++
        [⟨⟨st.next_card_id, name, gender, age, phone, today, mtype, 1⟩, 0⟩],
       next_card_id := st.next_card_id + 1 }, some st.next_card_id)

/-- `updateMemberPhone`: only the phone field of the found node changes
(the console loop guarantees the new phone is valid). -/
def updateMemberPhone (id : Int) (newPhone : CStr) (st : Store) : Store × Bool :=
  match findByCardID id st.members with
  | none => (st, false)
  | some _ =>
    let f : MNode → MNode := fun n => ⟨{ n.data with phone := newPhone }, n.bonus_days⟩
    ({ st with members := updateFirst id f st.members }, true)

/-- Outcomes of `updateMemberStatus`. -/
inductive StatusResult where
  | ok | alreadyInactive | notFound
  deriving DecidableEq, Repr

/-- `updateMemberStatus`: manual, one-way deactivation. -/
def updateMemberStatus (id : Int) (st : Store) : Store × StatusResult :=
  match findByCardID id st.members with
  | none => (st, .notFound)
  | some p =>
    if p.data.is_active = 0 then (st, .alreadyInactive)
    else
      let f : MNode → MNode := fun n => ⟨{ n.data with is_active := 0 }, n.bonus_days⟩
      ({ st with members := updateFirst id f st.members }, .ok)

/-- Outcomes of `deleteExpiredMember`. -/
inductive DeleteResult where
  | deleted | stillActive | notFound
  deriving DecidableEq, Repr

/-- `deleteExpiredMember`: synchronize, find, refuse if still active,
otherwise unlink. -/
def deleteExpiredMember (today : CStr) (id : Int) (st : Store) : Store × DeleteResult :=
  let ms := syncAutoExpire today st.members
  match findByCardID id ms with
  | none => ({ st with members := ms }, .notFound)
  | some p =>
    if p.data.is_active = 1 then ({ st with members := ms }, .stillActive)
    else ({ st with members := removeFirst id ms }, .deleted)

/-- Outcomes of `renewMember`. -/
inductive RenewResult where
  | reactivated | extended | typeMismatch | notFound
  deriving DecidableEq, Repr

/-- `renewMember`: synchronize, find, then the renewal state machine.
`newType`/`newDuration` come from the type menu, which only produces
the three (token, duration) pairs — a hypothesis of the theorems. -/
def renewMember (today : CStr) (id : Int) (newType : CStr) (newDuration : Int)
    (st : Store) : Store × RenewResult :=
  let ms := syncAutoExpire today st.members
  match findByCardID id ms with
  | none => ({ st with members := ms }, .notFound)
  | some p =>
    let current_days := dateToDays today
    let expire_days := calcExpireDays p
    if p.data.is_active = 0 ∨ expire_days < current_days then
      let f : MNode → MNode := fun n =>
        ⟨{ n.data with join_date := today, membership_type := newType, is_active := 1 }, 0⟩
      ({ st with members := updateFirst id f ms }, .reactivated)
    else if newType ≠ p.data.membership_type then
      ({ st with members := ms }, .typeMismatch)
    else
      let f : MNode → MNode := fun n =>
        ⟨{ n.data with is_active := 1 }, n.bonus_days + newDuration⟩
      ({ st with members := updateFirst id f ms }, .extended)

/- =========================================================
   Persistence Layer (`saveToFile`, `loadFromFile`),
   final.c lines 374-470
   ========================================================= -/

/-- One output line of `saveToFile`'s
`fprintf(fp, "%d|%s|%s|%d|%s|%s|%s|%d|%ld\n", ...)` (without the
terminating newline, which the line-level file model carries). -/
def memberLine (n : MNode) : CStr :=
  intChars n.data.card_id ++ ('|' :: (n.data.name ++ ('|' :: (n.data.gender ++
    ('|' :: (intChars n.data.age ++ ('|' :: (n.data.phone ++ ('|' :: (n.data.join_date ++
    ('|' :: (n.data.membership_type ++ ('|' :: (intChars n.data.is_active ++
    ('|' :: intChars n.bonus_days)))))))))))))))

/-- The staging file contents `saveToFile` writes. -/
def saveLines (ms : List MNode) : List CStr := ms.map memberLine

/-- The two files `saveToFile` touches. -/
structure FS where
  dest : Option (List CStr)
  tmp : Option (List CStr)
  deriving DecidableEq, Repr

/-- `saveToFile`: write the staging file, `remove` the destination,
`rename` the staging file onto it; on rename failure `remove` the
staging file and report failure (0).  `openFail` and `renameFail` are
the failure oracles for `fopen(TEMP_FILE, "wb")` and `rename`. -/
def saveToFile (ms : List MNode) (fs : FS) (openFail renameFail : Bool) : FS × Int :=
  if openFail then (fs, 0)
  else
    let written : FS := { fs with tmp := some (saveLines ms) }
    let removed : FS := { written with dest := none }
    if renameFail then ({ removed with tmp := none }, 0)
    else ({ dest := removed.tmp, tmp := none }, 1)

/-- One line of `loadFromFile`: nine `strtok` fields (extra fields are
never requested), `strncpy` truncation to the struct buffer sizes,
`atoi`/`atol` conversion, then the validation ladder, in source
order. -/
def parseLine (l : CStr) : Option MNode :=
  match splitPipe l with
  | t0 :: t1 :: t2 :: t3 :: t4 :: t5 :: t6 :: t7 :: t8 :: _ =>
    let card_id := atoi t0
    let name := t1.take 29
    let gender := t2.take 9
    let age := atoi t3
    let phone := t4.take 14
    let join_date := t5.take 11
    let mtype := t6.take 9
    let is_active := atoi t7
    let bonus_days := atol t8
    if card_id ≤ 0 then none
    else if ¬ isValidAge age then none
    else if ¬ isValidPhone phone then none
    else if ¬ (gender = maleStr ∨ gender = femaleStr) then none
    else if getDurationDays mtype = 0 then none
    else if ¬ (is_active = 0 ∨ is_active = 1) then none
    else if dateToDays join_date = 0 then none
    else some ⟨⟨card_id, name, gender, age, phone, join_date, mtype, is_active⟩, bonus_days⟩
  | _ => none

/-- `if (card_id > max_id) max_id = card_id;` -/
def updMax (m c : Int) : Int := if c > m then c else m

/-- The `while (fgets(...))` loop: skip blank lines, skip lines that
fail a check, stop (`break`) when the store is full, otherwise append
and track the loaded count and the maximum accepted id. -/
def loadStep : List CStr → List MNode → Int → Int → List MNode × Int × Int
  | [], acc, loaded, maxId => (acc, loaded, maxId)
  | l :: rest, acc, loaded, maxId =>
    if l = [] then loadStep rest acc loaded maxId
    else
      match parseLine l with
      | none => loadStep rest acc loaded maxId
      | some node =>
        if acc.length ≥ MAX_MEMBERS then (acc, loaded, maxId)
        else loadStep rest (acc ++ [node]) (loaded + 1) (updMax maxId node.data.card_id)

/-- `loadFromFile`: `none` models a missing file (`fopen` fails; the
store is untouched and 0 is returned).  Otherwise the store is rebuilt
from scratch (`freeAllMembers`), `next_card_id` is set from the maximum
accepted id (seeded with 1000), and one synchronization pass runs. -/
def loadFromFile (today : CStr) (file : Option (List CStr)) (st : Store) : Store × Int :=
  match file with
  | none => (st, 0)
  | some lines =>
    let r := loadStep lines [] 0 1000
    ({ members := syncAutoExpire today r.1, next_card_id := r.2.2 + 1 }, r.2.1)

/- =========================================================
   Proof-side mirror of the Calendar Engine on `Nat`
   (used to reason about dates with year ≥ 1; linked to the
   embedded `Int` functions by cast lemmas below)
   ========================================================= -/

/-- `Nat` mirror of `isLeapYear`. -/
def leapN (y : Nat) : Bool :=
  (y % 4 == 0 && y % 100 != 0) || (y % 400 == 0)

/-- `Nat` mirror of `daysInMonth`. -/
def dimN (y m : Nat) : Nat :=
  if m = 2 then (if leapN y then 29 else 28)
  else if m = 1 ∨ m = 3 ∨ m = 5 ∨ m = 7 ∨ m = 8 ∨ m = 10 ∨ m = 12 then 31
  else if m = 4 ∨ m = 6 ∨ m = 9 ∨ m = 11 then 30
  else 0

/-- `Nat` mirror of `monthDaysSum`. -/
def mpsN (y : Nat) : Nat → Nat
  | 0 => 0
  | k + 1 => mpsN y k + dimN y (k + 1)

/-- `Nat` mirror of `leapCountTo`. -/
def lcN (x : Nat) : Nat := x / 4 - x / 100 + x / 400

/-- `Nat` mirror of the valid-date branch of `dateCalc`. -/
def ordN (y m d : Nat) : Nat := y * 365 + lcN (y - 1) + mpsN y (m - 1) + d

/-- A structurally valid Gregorian date (year at least 1, month in
range, day within the month, leap years included). -/
def ValidYMD (y m d : Nat) : Prop :=
  1 ≤ y ∧ 1 ≤ m ∧ m ≤ 12 ∧ 1 ≤ d ∧ d ≤ dimN y m

/-- Validity of a packed triple. -/
def ValidT (v : Nat × Nat × Nat) : Prop := ValidYMD v.1 v.2.1 v.2.2

/-- `ordN` on a packed triple. -/
def ordT (v : Nat × Nat × Nat) : Nat := ordN v.1 v.2.1 v.2.2

/-- The embedded ordinal on a packed triple of naturals. -/
def dateCalcT (v : Nat × Nat × Nat) : Int := dateCalc v.1 v.2.1 v.2.2

/-- Calendar successor of a date triple. -/
def nextYMD (v : Nat × Nat × Nat) : Nat × Nat × Nat :=
  if v.2.2 < dimN v.1 v.2.1 then (v.1, v.2.1, v.2.2 + 1)
  else if v.2.1 < 12 then (v.1, v.2.1 + 1, 1)
  else (v.1 + 1, 1, 1)

/-- Calendar (lexicographic) strict order on date triples. -/
def ymdLt (a b : Nat × Nat × Nat) : Prop :=
  a.1 < b.1 ∨ (a.1 = b.1 ∧ (a.2.1 < b.2.1 ∨ (a.2.1 = b.2.1 ∧ a.2.2 < b.2.2)))

instance (y m d : Nat) : Decidable (ValidYMD y m d) := by
  unfold ValidYMD; infer_instance

instance (v : Nat × Nat × Nat) : Decidable (ValidT v) := by
  unfold ValidT; infer_instance

instance (a b : Nat × Nat × Nat) : Decidable (ymdLt a b) := by
  unfold ymdLt; infer_instance

/- =========================================================
   Well-formed records: what the creation/validation paths of the
   program itself guarantee for a record in the store, plus
   delimiter/newline-freedom of the textual fields (which the add
   path does NOT enforce for names — the subject of claim C6)
   ========================================================= -/

/-- A textual field that survives the line-oriented `|`-separated file
format: nonempty and free of the delimiter and of line terminators. -/
def FieldOk (s : CStr) : Prop :=
  s ≠ [] ∧ '|' ∉ s ∧ '\n' ∉ s ∧ '\r' ∉ s

/-- Well-formedness of one store node: the constraints `loadFromFile`
checks (and `addMember`'s input loops guarantee), together with the
buffer-size bounds of the `Member` struct and format-compatibility of
the free-text fields. -/
def WFnode (n : MNode) : Prop :=
  0 < n.data.card_id ∧
  FieldOk n.data.name ∧ n.data.name.length ≤ 29 ∧
  (n.data.gender = maleStr ∨ n.data.gender = femaleStr) ∧
  isValidAge n.data.age = true ∧
  isValidPhone n.data.phone = true ∧
  FieldOk n.data.join_date ∧ n.data.join_date.length ≤ 11 ∧
  dateToDays n.data.join_date ≠ 0 ∧
  getDurationDays n.data.membership_type ≠ 0 ∧
  (n.data.is_active = 0 ∨ n.data.is_active = 1)

instance (s : CStr) : Decidable (FieldOk s) := by
  unfold FieldOk; infer_instance

instance (n : MNode) : Decidable (WFnode n) := by
  unfold WFnode; infer_instance

/-- Well-formedness of a whole store's record list. -/
def WFlist (ms : List MNode) : Prop :=
  (∀ n ∈ ms, WFnode n) ∧ ms.length ≤ MAX_MEMBERS

/- =========================================================
   Concrete values for the spec's scenarios
   ========================================================= -/

/-- The date string 2025-01-01. -/
def d20250101 : CStr := ['2', '0', '2', '5', '-', '0', '1', '-', '0', '1']

/-- The date string 2025-01-31. -/
def d20250131 : CStr := ['2', '0', '2', '5', '-', '0', '1', '-', '3', '1']

/-- The date string 2025-02-01. -/
def d20250201 : CStr := ['2', '0', '2', '5', '-', '0', '2', '-', '0', '1']

/-- The date string 2025-03-01. -/
def d20250301 : CStr := ['2', '0', '2', '5', '-', '0', '3', '-', '0', '1']

/-- The date string 2025-06-01. -/
def d20250601 : CStr := ['2', '0', '2', '5', '-', '0', '6', '-', '0', '1']

/-- The date string 2025-06-10. -/
def d20250610 : CStr := ['2', '0', '2', '5', '-', '0', '6', '-', '1', '0']

/-- The leap-day date string 2024-02-29 (valid). -/
def d20240229 : CStr := ['2', '0', '2', '4', '-', '0', '2', '-', '2', '9']

/-- The date string 2023-02-29 (2023 is not a leap year). -/
def d20230229 : CStr := ['2', '0', '2', '3', '-', '0', '2', '-', '2', '9']

/-- An unparseable date string. -/
def badDateStr : CStr := ['h', 'i']

/-- An example 11-digit phone field. -/
def phoneEx : CStr := ['1', '3', '8', '0', '0', '1', '3', '8', '0', '0', '0']

/-- Scenario record: monthly member joined 2025-01-01, no bonus days. -/
def exMonthly : MNode :=
  ⟨⟨1001, ['a', 'b'], maleStr, 25, phoneEx, d20250101, typeMonthly, 1⟩, 0⟩

/-- Scenario record: manually deactivated member. -/
def exInactive : MNode :=
  ⟨⟨1002, ['c', 'd'], femaleStr, 30, phoneEx, d20250101, typeQuarterly, 0⟩, 0⟩

/-- Scenario record: active member current as of June 2025. -/
def exCurrent : MNode :=
  ⟨⟨1003, ['e', 'f'], maleStr, 40, phoneEx, d20250601, typeMonthly, 1⟩, 0⟩

/-- A console name containing the field delimiter. -/
def nameWithPipe : CStr := ['a', '|', 'b']

/-- A file line whose record carries card id 5 (valid record). -/
def line5 : CStr :=
  ['5', '|', 'a', 'b', '|', '男', '|', '2', '5', '|'] ++ phoneEx ++
    ['|'] ++ d20250101 ++ ['|', '月', '卡', '|', '1', '|', '0']

/-- A file line whose record has age 15 (fails the age check). -/
def line15 : CStr :=
  ['7', '|', 'a', 'b', '|', '男', '|', '1', '5', '|'] ++ phoneEx ++
    ['|'] ++ d20250101 ++ ['|', '月', '卡', '|', '1', '|', '0']

/-- A store that is a synchronization fixpoint on 2025-06-10: one
active, current member and one manually-deactivated member. -/
def stC9 : Store := ⟨[exCurrent, exInactive], 1004⟩

/-- A store at the capacity ceiling. -/
def stFull : Store := ⟨List.replicate 100 exMonthly, 1001⟩

/-- The record encoded by `line5`. -/
def node5 : MNode :=
  ⟨⟨5, ['a', 'b'], maleStr, 25, phoneEx, d20250101, typeMonthly, 1⟩, 0⟩

/-- The record produced by the reactivation branch of `renewMember`:
join date reset to today, bonus days cleared, the requested type, and
active status. -/
def reactNode (today newType : CStr) (n : MNode) : MNode :=
  ⟨{ n.data with join_date := today, membership_type := newType, is_active := 1 }, 0⟩

/-- `TracesTo new old`: every record of `new` corresponds to a record
of `old` with the same card id and membership type whose activity can
only have decreased (no `false → true` flip, no type change). -/
def TracesTo (new old : List MNode) : Prop :=
  ∀ q ∈ new, ∃ r ∈ old, q.data.card_id = r.data.card_id ∧
    q.data.membership_type = r.data.membership_type ∧
    (q.data.is_active = 1 → r.data.is_active = 1)

/- =========================================================
   Lemmas: decimal text round trip (`fprintf %d` then `atoi`)
   ========================================================= -/

theorem takeWhile_of_all {p : Char → Bool} :
    ∀ {l : CStr}, (∀ c ∈ l, p c = true) → l.takeWhile p = l := by
  intro l
  induction l with
  | nil => intro _; rfl
  | cons c cs ih =>
    intro h
    have hc : p c = true := h c (by simp)
    rw [List.takeWhile_cons, if_pos hc, ih fun x hx => h x (by simp [hx])]

theorem foldl_val_append (xs : List Char) (c : Char) :
    (xs ++ [c]).foldl (fun a x => 10 * a + digitVal x) 0 =
      10 * xs.foldl (fun a x => 10 * a + digitVal x) 0 + digitVal c := by
  simp [List.foldl_append]

theorem digitVal_digitChar {d : Nat} (h : d < 10) :
    digitVal (Nat.digitChar d) = d := by
  interval_cases d <;> rfl

theorem isDigit_digitChar {d : Nat} (h : d < 10) :
    (Nat.digitChar d).isDigit = true := by
  interval_cases d <;> rfl

theorem natCharsAux_spec :
    ∀ fuel n, n ≤ fuel →
      (∀ c ∈ natCharsAux fuel n, c.isDigit = true) ∧
        (natCharsAux fuel n).foldl (fun a x => 10 * a + digitVal x) 0 = n := by
  intro fuel
  induction fuel with
  | zero =>
    intro n hn
    have h0 : n = 0 := Nat.le_zero.mp hn
    subst h0
    refine ⟨?_, rfl⟩
    intro c hc
    simp [natCharsAux] at hc
  | succ fuel ih =>
    intro n hn
    by_cases h0 : n = 0
    · subst h0
      exact ⟨by intro c hc; simp [natCharsAux] at hc, by simp [natCharsAux]⟩
    · have hdiv : n / 10 ≤ fuel := by
        have : n / 10 < n := Nat.div_lt_self (Nat.pos_of_ne_zero h0) (by omega)
        omega
      obtain ⟨ihd, ihv⟩ := ih (n / 10) hdiv
      have hmod : n % 10 < 10 := Nat.mod_lt _ (by omega)
      constructor
      · intro c hc
        simp [natCharsAux, h0] at hc
        rcases hc with hc | hc
        · exact ihd c hc
        · subst hc; exact isDigit_digitChar hmod
      · simp only [natCharsAux, h0, if_false]
        rw [foldl_val_append, ihv, digitVal_digitChar hmod]
        omega

theorem natChars_all_digits (n : Nat) : ∀ c ∈ natChars n, c.isDigit = true := by
  unfold natChars
  by_cases h : n = 0
  · subst h; intro c hc; simp at hc; subst hc; rfl
  · simp only [h, if_false]
    exact (natCharsAux_spec n n le_rfl).1

theorem natChars_ne_nil (n : Nat) : natChars n ≠ [] := by
  unfold natChars
  by_cases h : n = 0
  · simp [h]
  · simp only [h, if_false]
    have := (natCharsAux_spec n n le_rfl).2
    intro hnil
    rw [hnil] at this
    simp at this
    omega

theorem digitsFold_natChars (n : Nat) : digitsFold (natChars n) = n := by
  unfold digitsFold
  rw [takeWhile_of_all (natChars_all_digits n)]
  by_cases h : n = 0
  · subst h; rfl
  · unfold natChars
    simp only [h, if_false]
    exact (natCharsAux_spec n n le_rfl).2

theorem not_space_of_digit {c : Char} (h : c.isDigit = true) : isSpaceChar c = false := by
  unfold isSpaceChar
  apply decide_eq_false
  rintro (rfl | rfl | rfl | rfl | rfl | rfl) <;> simp [Char.isDigit] at h

theorem dropWhile_space_digits {l : CStr} (h : ∀ c ∈ l, c.isDigit = true) :
    l.dropWhile isSpaceChar = l := by
  cases l with
  | nil => rfl
  | cons c cs =>
    have : isSpaceChar c = false := not_space_of_digit (h c (by simp))
    simp [List.dropWhile_cons, this]

theorem digit_ne_minus {c : Char} (h : c.isDigit = true) : c ≠ '-' := by
  intro he; subst he; simp [Char.isDigit] at h

theorem digit_ne_plus {c : Char} (h : c.isDigit = true) : c ≠ '+' := by
  intro he; subst he; simp [Char.isDigit] at h

theorem digit_ne_pipe {c : Char} (h : c.isDigit = true) : c ≠ '|' := by
  intro he; subst he; simp [Char.isDigit] at h

/-- Writing an integer with `%d` and reading it back with `atoi` is the
identity. -/
theorem atoi_neg_cons (cs : CStr) : atoi ('-' :: cs) = -(digitsFold cs : Int) := by
  unfold atoi
  rw [List.dropWhile_cons, if_neg (by decide)]
  simp

theorem atoi_cons_digit {c : Char} (cs : CStr) (h : c.isDigit = true) :
    atoi (c :: cs) = (digitsFold (c :: cs) : Int) := by
  unfold atoi
  rw [List.dropWhile_cons, if_neg (by simp [not_space_of_digit h])]
  simp [digit_ne_minus h, digit_ne_plus h]

theorem atoi_intChars (i : Int) : atoi (intChars i) = i := by
  unfold intChars
  by_cases hneg : i < 0
  · rw [if_pos hneg, atoi_neg_cons, digitsFold_natChars,
      Int.toNat_of_nonneg (by omega)]
    omega
  · rw [if_neg hneg]
    obtain ⟨c, cs, hcons⟩ := List.exists_cons_of_ne_nil (natChars_ne_nil i.toNat)
    have hcd : c.isDigit = true := natChars_all_digits i.toNat c (by rw [hcons]; simp)
    rw [hcons, atoi_cons_digit cs hcd, ← hcons, digitsFold_natChars,
      Int.toNat_of_nonneg (by omega)]

/- =========================================================
   Lemmas: `strtok` tokenisation of `|`-joined fields
   ========================================================= -/

theorem splitPipeAux_no_pipe :
    ∀ (t : CStr) (acc : List Char), '|' ∉ t →
      splitPipeAux t acc = if acc.reverse ++ t = [] then [] else [acc.reverse ++ t] := by
  intro t
  induction t with
  | nil =>
    intro acc _
    by_cases h : acc = []
    · simp [splitPipeAux, h]
    · simp [splitPipeAux, h, List.reverse_eq_nil_iff]
  | cons c t' ih =>
    intro acc hnp
    have hc : ¬ (c = '|') := by intro he; exact hnp (by simp [he])
    have ht' : '|' ∉ t' := fun hm => hnp (by simp [hm])
    rw [splitPipeAux, if_neg hc, ih (c :: acc) ht']
    have hne : acc.reverse ++ c :: t' ≠ [] := by simp
    have hne2 : (c :: acc).reverse ++ t' ≠ [] := by simp
    rw [if_neg hne2, if_neg hne]
    simp

theorem splitPipeAux_token :
    ∀ (t : CStr) (rest : CStr) (acc : List Char), '|' ∉ t →
      splitPipeAux (t ++ '|' :: rest) acc =
        if acc.reverse ++ t = [] then splitPipeAux rest []
        else (acc.reverse ++ t) :: splitPipeAux rest [] := by
  intro t
  induction t with
  | nil =>
    intro rest acc _
    simp only [List.nil_append, List.append_nil]
    rw [splitPipeAux, if_pos rfl]
    by_cases h : acc = []
    · simp [h]
    · simp [h, List.reverse_eq_nil_iff]
  | cons c t' ih =>
    intro rest acc hnp
    have hc : ¬ (c = '|') := by intro he; exact hnp (by simp [he])
    have ht' : '|' ∉ t' := fun hm => hnp (by simp [hm])
    have hstep : (c :: t') ++ '|' :: rest = c :: (t' ++ '|' :: rest) := rfl
    rw [hstep, splitPipeAux, if_neg hc, ih rest (c :: acc) ht']
    have hne : acc.reverse ++ c :: t' ≠ [] := by simp
    have hne2 : (c :: acc).reverse ++ t' ≠ [] := by simp
    rw [if_neg hne2, if_neg hne]
    simp

/-- `strtok` recovers a nonempty delimiter-free field before a `'|'`. -/
theorem splitPipe_field (t rest : CStr) (hne : t ≠ []) (hnp : '|' ∉ t) :
    splitPipe (t ++ '|' :: rest) = t :: splitPipe rest := by
  unfold splitPipe
  rw [splitPipeAux_token t rest [] hnp]
  simp [hne]

/-- `strtok` recovers a final nonempty delimiter-free field. -/
theorem splitPipe_last (t : CStr) (hne : t ≠ []) (hnp : '|' ∉ t) :
    splitPipe t = [t] := by
  unfold splitPipe
  rw [splitPipeAux_no_pipe t [] hnp]
  simp [hne]

/- =========================================================
   Lemmas: a well-formed record's line parses back to the record
   ========================================================= -/

theorem intChars_ne_nil (i : Int) : intChars i ≠ [] := by
  unfold intChars
  by_cases h : i < 0
  · simp [h]
  · simp [h, natChars_ne_nil]

theorem intChars_no_pipe (i : Int) : '|' ∉ intChars i := by
  unfold intChars
  by_cases h : i < 0
  · rw [if_pos h]
    intro hm
    rcases List.mem_cons.mp hm with he | hm2
    · exact absurd he (by decide)
    · exact absurd rfl (digit_ne_pipe (natChars_all_digits _ _ hm2))
  · rw [if_neg h]
    intro hm
    exact absurd rfl (digit_ne_pipe (natChars_all_digits _ _ hm))

theorem phone_facts {p : CStr} (h : isValidPhone p = true) :
    p.length = 11 ∧ p ≠ [] ∧ '|' ∉ p := by
  unfold isValidPhone at h
  simp only [Bool.and_eq_true, decide_eq_true_eq, List.all_eq_true] at h
  obtain ⟨hlen, hall⟩ := h
  refine ⟨hlen, ?_, ?_⟩
  · intro hnil; rw [hnil] at hlen; simp at hlen
  · intro hm
    have := hall '|' hm
    simp at this

theorem duration_cases {t : CStr} (h : getDurationDays t ≠ 0) :
    t = typeMonthly ∨ t = typeQuarterly ∨ t = typeYearly := by
  unfold getDurationDays at h
  by_cases h1 : t = typeMonthly
  · exact Or.inl h1
  by_cases h2 : t = typeQuarterly
  · exact Or.inr (Or.inl h2)
  by_cases h3 : t = typeYearly
  · exact Or.inr (Or.inr h3)
  rw [if_neg h1, if_neg h2, if_neg h3] at h
  exact absurd rfl h

theorem splitPipe_memberLine (n : MNode) (h : WFnode n) :
    splitPipe (memberLine n) =
      [intChars n.data.card_id, n.data.name, n.data.gender, intChars n.data.age,
       n.data.phone, n.data.join_date, n.data.membership_type,
       intChars n.data.is_active, intChars n.bonus_days] := by
  obtain ⟨hcid, hname, hnamelen, hgender, hage, hphone, hjd, hjdlen, hjdval, hdur, hact⟩ := h
  obtain ⟨hph_len, hph_ne, hph_np⟩ := phone_facts hphone
  have hgen_ne : n.data.gender ≠ [] := by rcases hgender with h | h <;> simp [h, maleStr, femaleStr]
  have hgen_np : '|' ∉ n.data.gender := by
    rcases hgender with h | h <;> simp [h, maleStr, femaleStr]
  have hmt_ne : n.data.membership_type ≠ [] := by
    rcases duration_cases hdur with h | h | h <;>
      simp [h, typeMonthly, typeQuarterly, typeYearly]
  have hmt_np : '|' ∉ n.data.membership_type := by
    rcases duration_cases hdur with h | h | h <;>
      simp [h, typeMonthly, typeQuarterly, typeYearly]
  unfold memberLine
  rw [splitPipe_field _ _ (intChars_ne_nil _) (intChars_no_pipe _),
    splitPipe_field _ _ hname.1 hname.2.1,
    splitPipe_field _ _ hgen_ne hgen_np,
    splitPipe_field _ _ (intChars_ne_nil _) (intChars_no_pipe _),
    splitPipe_field _ _ hph_ne hph_np,
    splitPipe_field _ _ hjd.1 hjd.2.1,
    splitPipe_field _ _ hmt_ne hmt_np,
    splitPipe_field _ _ (intChars_ne_nil _) (intChars_no_pipe _),
    splitPipe_last _ (intChars_ne_nil _) (intChars_no_pipe _)]

/-- A well-formed record's saved line loads back as exactly that
record. -/
theorem parseLine_memberLine (n : MNode) (h : WFnode n) :
    parseLine (memberLine n) = some n := by
  have hsplit := splitPipe_memberLine n h
  obtain ⟨hcid, hname, hnamelen, hgender, hage, hphone, hjd, hjdlen, hjdval, hdur, hact⟩ := h
  have hph_len : n.data.phone.length = 11 := (phone_facts hphone).1
  have htk_name : n.data.name.take 29 = n.data.name :=
    List.take_of_length_le hnamelen
  have htk_jd : n.data.join_date.take 11 = n.data.join_date :=
    List.take_of_length_le hjdlen
  have htk_ph : n.data.phone.take 14 = n.data.phone :=
    List.take_of_length_le (by omega)
  have htk_gen : n.data.gender.take 9 = n.data.gender := by
    rcases hgender with h | h <;> simp [h, maleStr, femaleStr]
  have htk_mt : n.data.membership_type.take 9 = n.data.membership_type := by
    rcases duration_cases hdur with h | h | h <;>
      simp [h, typeMonthly, typeQuarterly, typeYearly]
  unfold parseLine
  rw [hsplit]
  simp only [atoi_intChars, atol, htk_name, htk_jd, htk_ph, htk_gen, htk_mt]
  rw [if_neg (by omega), if_neg (by simp [hage]), if_neg (by simp [hphone]),
    if_neg (by simp [hgender]), if_neg hdur, if_neg (by simp [hact]),
    if_neg (by simp [hjdval])]

/- =========================================================
   Lemmas: list search / in-place update / unlink
   ========================================================= -/

theorem findByCardID_split {id : Int} :
    ∀ {ms : List MNode} {p : MNode}, findByCardID id ms = some p →
      ∃ pre post, ms = pre ++ p :: post ∧ (∀ q ∈ pre, q.data.card_id ≠ id) ∧
        p.data.card_id = id := by
  intro ms
  induction ms with
  | nil => intro p h; simp [findByCardID] at h
  | cons n rest ih =>
    intro p h
    unfold findByCardID at h
    by_cases hid : n.data.card_id = id
    · rw [if_pos hid] at h
      cases h
      refine ⟨[], rest, by simp, ?_, hid⟩
      intro q hq; cases hq
    · rw [if_neg hid] at h
      obtain ⟨pre, post, heq, hpre, hp⟩ := ih h
      exact ⟨n :: pre, post, by simp [heq], by
        intro q hq
        rcases List.mem_cons.mp hq with rfl | hq2
        · exact hid
        · exact hpre q hq2, hp⟩

theorem findByCardID_none {id : Int} :
    ∀ {ms : List MNode}, findByCardID id ms = none → ∀ q ∈ ms, q.data.card_id ≠ id := by
  intro ms
  induction ms with
  | nil => intro _ q hq; cases hq
  | cons n rest ih =>
    intro h q hq
    unfold findByCardID at h
    by_cases hid : n.data.card_id = id
    · rw [if_pos hid] at h; cases h
    · rw [if_neg hid] at h
      rcases List.mem_cons.mp hq with rfl | hq2
      · exact hid
      · exact ih h q hq2

theorem updateFirst_split (id : Int) (f : MNode → MNode) :
    ∀ (pre : List MNode) (p : MNode) (post : List MNode),
      (∀ q ∈ pre, q.data.card_id ≠ id) → p.data.card_id = id →
      updateFirst id f (pre ++ p :: post) = pre ++ f p :: post := by
  intro pre
  induction pre with
  | nil => intro p post _ hp; simp [updateFirst, hp]
  | cons n rest ih =>
    intro p post hpre hp
    have hn : n.data.card_id ≠ id := hpre n (by simp)
    show updateFirst id f (n :: (rest ++ p :: post)) = n :: (rest ++ f p :: post)
    rw [updateFirst, if_neg hn, ih p post (fun q hq => hpre q (by simp [hq])) hp]

theorem removeFirst_split (id : Int) :
    ∀ (pre : List MNode) (p : MNode) (post : List MNode),
      (∀ q ∈ pre, q.data.card_id ≠ id) → p.data.card_id = id →
      removeFirst id (pre ++ p :: post) = pre ++ post := by
  intro pre
  induction pre with
  | nil => intro p post _ hp; simp [removeFirst, hp]
  | cons n rest ih =>
    intro p post hpre hp
    have hn : n.data.card_id ≠ id := hpre n (by simp)
    show removeFirst id (n :: (rest ++ p :: post)) = n :: (rest ++ post)
    rw [removeFirst, if_neg hn, ih p post (fun q hq => hpre q (by simp [hq])) hp]

theorem updateFirst_sub :
    ∀ (id : Int) (f : MNode → MNode) (ms : List MNode) (q : MNode),
      q ∈ updateFirst id f ms → q ∈ ms ∨ ∃ r ∈ ms, q = f r := by
  intro id f ms
  induction ms with
  | nil => intro q hq; cases hq
  | cons n rest ih =>
    intro q hq
    unfold updateFirst at hq
    by_cases hid : n.data.card_id = id
    · rw [if_pos hid] at hq
      rcases List.mem_cons.mp hq with rfl | hq2
      · exact Or.inr ⟨n, by simp⟩
      · exact Or.inl (by simp [hq2])
    · rw [if_neg hid] at hq
      rcases List.mem_cons.mp hq with rfl | hq2
      · exact Or.inl (by simp)
      · rcases ih q hq2 with h | ⟨r, hr, he⟩
        · exact Or.inl (by simp [h])
        · exact Or.inr ⟨r, by simp [hr], he⟩

theorem removeFirst_sub :
    ∀ (id : Int) (ms : List MNode) (q : MNode), q ∈ removeFirst id ms → q ∈ ms := by
  intro id ms
  induction ms with
  | nil => intro q hq; cases hq
  | cons n rest ih =>
    intro q hq
    unfold removeFirst at hq
    by_cases hid : n.data.card_id = id
    · rw [if_pos hid] at hq; exact by simp [hq]
    · rw [if_neg hid] at hq
      rcases List.mem_cons.mp hq with rfl | hq2
      · exact by simp
      · exact by simp [ih q hq2]

/- =========================================================
   Lemmas: the Expiration Synchronizer
   ========================================================= -/

theorem syncOne_card_id (cur : Int) (n : MNode) :
    (syncOne cur n).data.card_id = n.data.card_id := by
  unfold syncOne; split <;> rfl

theorem syncOne_fields (cur : Int) (n : MNode) :
    (syncOne cur n).data.name = n.data.name ∧
    (syncOne cur n).data.gender = n.data.gender ∧
    (syncOne cur n).data.age = n.data.age ∧
    (syncOne cur n).data.phone = n.data.phone ∧
    (syncOne cur n).data.join_date = n.data.join_date ∧
    (syncOne cur n).data.membership_type = n.data.membership_type ∧
    (syncOne cur n).bonus_days = n.bonus_days := by
  unfold syncOne; split <;> exact ⟨rfl, rfl, rfl, rfl, rfl, rfl, rfl⟩

theorem calcExpireDays_syncOne (cur : Int) (n : MNode) :
    calcExpireDays (syncOne cur n) = calcExpireDays n := by
  unfold syncOne calcExpireDays; split <;> rfl

theorem syncOne_expired (cur : Int) (n : MNode) (ha : n.data.is_active = 1)
    (he : calcExpireDays n < cur) :
    syncOne cur n = ⟨{ n.data with is_active := 0 }, n.bonus_days⟩ := by
  unfold syncOne
  rw [if_pos ⟨ha, by omega⟩]

theorem syncOne_current (cur : Int) (n : MNode) (_ha : n.data.is_active = 1)
    (he : cur ≤ calcExpireDays n) : syncOne cur n = n := by
  unfold syncOne
  rw [if_neg]
  rintro ⟨_, h2⟩
  omega

theorem syncOne_inactive (cur : Int) (n : MNode) (ha : n.data.is_active ≠ 1) :
    syncOne cur n = n := by
  unfold syncOne
  rw [if_neg]
  rintro ⟨h1, _⟩
  exact ha h1

theorem syncOne_idem (cur : Int) (n : MNode) :
    syncOne cur (syncOne cur n) = syncOne cur n := by
  by_cases ha : n.data.is_active = 1
  · by_cases he : calcExpireDays n < cur
    · rw [syncOne_expired cur n ha he]
      exact syncOne_inactive cur _ (by simp)
    · rw [syncOne_current cur n ha (by omega), syncOne_current cur n ha (by omega)]
  · rw [syncOne_inactive cur n ha, syncOne_inactive cur n ha]

theorem syncAutoExpire_idem (today : CStr) (ms : List MNode) :
    syncAutoExpire today (syncAutoExpire today ms) = syncAutoExpire today ms := by
  unfold syncAutoExpire
  rw [List.map_map]
  exact List.map_congr_left fun n _ => syncOne_idem _ n

theorem syncAutoExpire_length (today : CStr) (ms : List MNode) :
    (syncAutoExpire today ms).length = ms.length := by
  unfold syncAutoExpire; exact List.length_map ms _

theorem WFnode_syncOne {cur : Int} {n : MNode} (h : WFnode n) : WFnode (syncOne cur n) := by
  unfold syncOne
  split
  · obtain ⟨h1, h2, h3, h4, h5, h6, h7, h8, h9, h10, _⟩ := h
    exact ⟨h1, h2, h3, h4, h5, h6, h7, h8, h9, h10, Or.inl rfl⟩
  · exact h

/- =========================================================
   Lemmas: the load loop
   ========================================================= -/

theorem parseLine_nil : parseLine [] = none := rfl

theorem loadStep_skip {l : CStr} (hskip : parseLine l = none)
    (rest : List CStr) (acc : List MNode) (loaded maxId : Int) :
    loadStep (l :: rest) acc loaded maxId = loadStep rest acc loaded maxId := by
  by_cases hnil : l = []
  · simp only [loadStep, if_pos hnil]
  · simp only [loadStep, if_neg hnil, hskip]

theorem loadStep_stop {l : CStr} {node : MNode} (hl : l ≠ [])
    (hparse : parseLine l = some node) (rest : List CStr) (acc : List MNode)
    (loaded maxId : Int) (hfull : MAX_MEMBERS ≤ acc.length) :
    loadStep (l :: rest) acc loaded maxId = (acc, loaded, maxId) := by
  simp only [loadStep, if_neg hl, hparse]
  rw [if_pos hfull]

/-- The load loop appends some block `dl` of accepted records, counts
exactly `dl`, and folds the accepted ids into the running maximum;
starting under capacity it never exceeds `MAX_MEMBERS`. -/
theorem loadStep_delta :
    ∀ (lines : List CStr) (acc : List MNode) (loaded maxId : Int),
      ∃ dl : List MNode,
        loadStep lines acc loaded maxId =
          (acc ++ dl, loaded + dl.length, (dl.map fun n => n.data.card_id).foldl updMax maxId) ∧
        (acc.length ≤ MAX_MEMBERS → acc.length + dl.length ≤ MAX_MEMBERS) ∧
        (∀ n ∈ dl, ∃ l ∈ lines, parseLine l = some n) := by
  intro lines
  induction lines with
  | nil =>
    intro acc loaded maxId
    refine ⟨[], by simp [loadStep], by simp, ?_⟩
    intro n hn; cases hn
  | cons l rest ih =>
    intro acc loaded maxId
    by_cases hnil : l = []
    · obtain ⟨dl, h1, h2, h3⟩ := ih acc loaded maxId
      refine ⟨dl, ?_, h2, ?_⟩
      · rw [← h1]; simp only [loadStep, if_pos hnil]
      · intro n hn
        obtain ⟨l2, hl2, hp⟩ := h3 n hn
        exact ⟨l2, by simp [hl2], hp⟩
    · cases hparse : parseLine l with
      | none =>
        obtain ⟨dl, h1, h2, h3⟩ := ih acc loaded maxId
        refine ⟨dl, ?_, h2, ?_⟩
        · rw [← h1]; exact loadStep_skip hparse rest acc loaded maxId
        · intro n hn
          obtain ⟨l2, hl2, hp⟩ := h3 n hn
          exact ⟨l2, by simp [hl2], hp⟩
      | some node =>
        by_cases hfull : MAX_MEMBERS ≤ acc.length
        · refine ⟨[], ?_, by intro h; simpa using h, ?_⟩
          · rw [loadStep_stop hnil hparse rest acc loaded maxId hfull]; simp
          · intro n hn; cases hn
        · obtain ⟨dl, h1, h2, h3⟩ :=
            ih (acc ++ [node]) (loaded + 1) (updMax maxId node.data.card_id)
          refine ⟨node :: dl, ?_, ?_, ?_⟩
          · simp only [loadStep, if_neg hnil, hparse, if_neg hfull]
            rw [h1]
            rw [Prod.ext_iff, Prod.ext_iff]
            refine ⟨by simp, ?_, by simp⟩
            simp only [List.length_cons]
            push_cast
            omega
          · intro hle
            have hlt : acc.length < MAX_MEMBERS := by omega
            have := h2 (by simp; omega)
            simp at this ⊢
            omega
          · intro n hn
            rcases List.mem_cons.mp hn with rfl | hn2
            · exact ⟨l, by simp, hparse⟩
            · obtain ⟨l2, hl2, hp⟩ := h3 n hn2
              exact ⟨l2, by simp [hl2], hp⟩

/- =========================================================
   Lemmas: casting the Calendar Engine down to the `Nat` mirror
   ========================================================= -/

theorem isLeapYear_cast (y : Nat) : isLeapYear (y : Int) = leapN y := by
  unfold isLeapYear leapN
  rw [Bool.eq_iff_iff]
  simp only [Bool.or_eq_true, Bool.and_eq_true, bne_iff_ne, beq_iff_eq, ne_eq]
  omega

theorem daysInMonth_cast (y m : Nat) (h1 : 1 ≤ m) (h2 : m ≤ 12) :
    daysInMonth (y : Int) (m : Int) = ((dimN y m : Nat) : Int) := by
  interval_cases m <;> norm_num [daysInMonth, dimN, isLeapYear_cast]

theorem leapCountTo_cast (x : Nat) : leapCountTo (x : Int) = ((lcN x : Nat) : Int) := by
  unfold leapCountTo lcN
  have h4 : Int.tdiv (x : Int) 4 = ((x / 4 : Nat) : Int) := rfl
  have h100 : Int.tdiv (x : Int) 100 = ((x / 100 : Nat) : Int) := rfl
  have h400 : Int.tdiv (x : Int) 400 = ((x / 400 : Nat) : Int) := rfl
  rw [h4, h100, h400]
  omega

theorem monthDaysSum_cast (y : Nat) :
    ∀ k : Nat, k ≤ 11 → monthDaysSum (y : Int) k = ((mpsN y k : Nat) : Int) := by
  intro k
  induction k with
  | zero => intro _; rfl
  | succ k ih =>
    intro hk
    show monthDaysSum (y : Int) k + daysInMonth (y : Int) ((k : Nat) + 1 : Nat) =
      ((mpsN y k + dimN y (k + 1) : Nat) : Int)
    rw [ih (by omega), daysInMonth_cast y (k + 1) (by omega) (by omega)]
    push_cast
    ring

theorem dateCalc_cast (y m d : Nat) (h : ValidYMD y m d) :
    dateCalc (y : Int) (m : Int) (d : Int) = ((ordN y m d : Nat) : Int) := by
  obtain ⟨hy, hm1, hm2, hd1, hd2⟩ := h
  unfold dateCalc
  rw [if_neg (by omega), if_neg (by rw [daysInMonth_cast y m hm1 hm2]; omega)]
  have hsub : ((y : Int) - 1) = ((y - 1 : Nat) : Int) := by omega
  have htn : ((m : Int)).toNat = m := rfl
  rw [hsub, htn, leapCountTo_cast, monthDaysSum_cast y (m - 1) (by omega)]
  unfold ordN
  push_cast
  ring

/- =========================================================
   Lemmas: calendar arithmetic on the `Nat` mirror
   ========================================================= -/

theorem leapN_iff (y : Nat) :
    leapN y = true ↔ ((4 ∣ y ∧ ¬ 100 ∣ y) ∨ 400 ∣ y) := by
  unfold leapN
  simp only [Bool.or_eq_true, Bool.and_eq_true, bne_iff_ne, beq_iff_eq, ne_eq,
    Nat.dvd_iff_mod_eq_zero]

/-- One more year adds exactly one leap day to the cumulative count
when (and only when) the year is a Gregorian leap year. -/
theorem lcN_succ (y : Nat) (hy : 1 ≤ y) :
    lcN y = lcN (y - 1) + (if leapN y then 1 else 0) := by
  obtain ⟨x, rfl⟩ : ∃ x, y = x + 1 := ⟨y - 1, by omega⟩
  have hred : x + 1 - 1 = x := by omega
  rw [hred]
  have hleap : (if leapN (x + 1) then (1 : Nat) else 0) =
      (if ((4 ∣ x + 1 ∧ ¬ 100 ∣ x + 1) ∨ 400 ∣ x + 1) then 1 else 0) := by
    by_cases h : ((4 ∣ x + 1 ∧ ¬ 100 ∣ x + 1) ∨ 400 ∣ x + 1)
    · rw [if_pos ((leapN_iff (x + 1)).mpr h), if_pos h]
    · rw [if_neg (fun hb => h ((leapN_iff (x + 1)).mp hb)), if_neg h]
  rw [hleap]
  unfold lcN
  rw [Nat.succ_div, Nat.succ_div, Nat.succ_div]
  by_cases h4 : 4 ∣ x + 1 <;> by_cases h100 : 100 ∣ x + 1 <;> by_cases h400 : 400 ∣ x + 1 <;>
    first
    | exact absurd (dvd_trans (by norm_num : (100 : Nat) ∣ 400) h400) h100
    | exact absurd (dvd_trans (by norm_num : (4 : Nat) ∣ 100) h100) h4
    | exact absurd (dvd_trans (by norm_num : (4 : Nat) ∣ 400) h400) h4
    | (simp only [h4, h100, h400, if_true, if_false, not_true, not_false_iff, true_and,
        false_and, and_true, and_false, true_or, or_true, false_or, or_false,
        not_false_eq_true, if_pos, if_neg]
       omega)

theorem mpsN_11 (y : Nat) : mpsN y 11 = 334 + (if leapN y then 1 else 0) := by
  show mpsN y 10 + dimN y 11 = _
  show mpsN y 9 + dimN y 10 + dimN y 11 = _
  simp only [mpsN, dimN]
  norm_num
  cases hl : leapN y <;> simp

theorem dimN_12 (y : Nat) : dimN y 12 = 31 := by norm_num [dimN]

theorem dimN_ge (y m : Nat) (h1 : 1 ≤ m) (h2 : m ≤ 12) : 28 ≤ dimN y m := by
  interval_cases m <;> unfold dimN <;> norm_num
  cases hl : leapN y <;> simp

theorem mpsN_step (y m : Nat) (h1 : 1 ≤ m) :
    mpsN y m = mpsN y (m - 1) + dimN y m := by
  obtain ⟨k, rfl⟩ : ∃ k, m = k + 1 := ⟨m - 1, by omega⟩
  simp [mpsN]

theorem mpsN_mono (y : Nat) : ∀ {k k' : Nat}, k ≤ k' → mpsN y k ≤ mpsN y k' := by
  intro k k' h
  induction k' with
  | zero => have : k = 0 := by omega
            subst this; exact le_rfl
  | succ k' ih =>
    by_cases he : k = k' + 1
    · subst he; exact le_rfl
    · have : k ≤ k' := by omega
      calc mpsN y k ≤ mpsN y k' := ih this
        _ ≤ mpsN y k' + dimN y (k' + 1) := Nat.le_add_right _ _
        _ = mpsN y (k' + 1) := rfl

/-- Rolling over New Year advances the ordinal by exactly one day. -/
theorem ordN_year_step (y : Nat) (hy : 1 ≤ y) :
    ordN (y + 1) 1 1 = ordN y 12 31 + 1 := by
  unfold ordN
  have e1 : (12 : Nat) - 1 = 11 := rfl
  have e2 : (1 : Nat) - 1 = 0 := rfl
  have e3 : mpsN (y + 1) 0 = 0 := rfl
  have e4 : y + 1 - 1 = y := by omega
  rw [e1, e2, e3, e4, mpsN_11, lcN_succ y hy]
  omega

/-- Rolling over a month end advances the ordinal by exactly one day. -/
theorem ordN_month_step (y m : Nat) (h1 : 1 ≤ m) (_h2 : m ≤ 11) :
    ordN y (m + 1) 1 = ordN y m (dimN y m) + 1 := by
  unfold ordN
  simp only [Nat.add_sub_cancel]
  rw [mpsN_step y m h1]
  omega

/-- Within a month the ordinal is the day offset. -/
theorem ordN_day_step (y m d : Nat) : ordN y m (d + 1) = ordN y m d + 1 := by
  unfold ordN; omega

/-- The calendar successor of a valid date is valid. -/
theorem nextYMD_valid {v : Nat × Nat × Nat} (h : ValidT v) : ValidT (nextYMD v) := by
  obtain ⟨y, m, d⟩ := v
  obtain ⟨hy, hm1, hm2, hd1, hd2⟩ := h
  dsimp only at hy hm1 hm2 hd1 hd2
  unfold nextYMD
  dsimp only
  by_cases hlt : d < dimN y m
  · rw [if_pos hlt]
    show ValidYMD y m (d + 1)
    exact ⟨hy, hm1, hm2, by omega, by omega⟩
  · rw [if_neg hlt]
    by_cases hm : m < 12
    · rw [if_pos hm]
      show ValidYMD y (m + 1) 1
      have := dimN_ge y (m + 1) (by omega) (by omega)
      exact ⟨hy, by omega, by omega, le_rfl, by omega⟩
    · rw [if_neg hm]
      show ValidYMD (y + 1) 1 1
      have := dimN_ge (y + 1) 1 (by omega) (by omega)
      exact ⟨by omega, le_rfl, by omega, le_rfl, by omega⟩

/-- The ordinal of the calendar successor is the successor ordinal. -/
theorem ordN_next {v : Nat × Nat × Nat} (h : ValidT v) :
    ordT (nextYMD v) = ordT v + 1 := by
  obtain ⟨y, m, d⟩ := v
  obtain ⟨hy, hm1, hm2, hd1, hd2⟩ := h
  dsimp only at hy hm1 hm2 hd1 hd2
  unfold nextYMD ordT
  dsimp only
  by_cases hlt : d < dimN y m
  · rw [if_pos hlt]
    exact ordN_day_step y m d
  · rw [if_neg hlt]
    have hde : d = dimN y m := by omega
    by_cases hm : m < 12
    · rw [if_pos hm]
      dsimp only
      subst hde
      exact ordN_month_step y m hm1 (by omega)
    · rw [if_neg hm]
      dsimp only
      have hm12 : m = 12 := by omega
      subst hm12
      rw [hde, dimN_12]
      exact ordN_year_step y hy

theorem ordN_iterate {v : Nat × Nat × Nat} (h : ValidT v) :
    ∀ n : Nat, ValidT (nextYMD^[n] v) ∧ ordT (nextYMD^[n] v) = ordT v + n := by
  intro n
  induction n with
  | zero => exact ⟨h, by simp⟩
  | succ n ih =>
    obtain ⟨hv, ho⟩ := ih
    rw [Function.iterate_succ_apply']
    exact ⟨nextYMD_valid hv, by rw [ordN_next hv, ho]; ring⟩

theorem ordN_le_year_end (y m d : Nat) (h : ValidYMD y m d) :
    ordN y m d ≤ ordN y 12 31 := by
  obtain ⟨hy, hm1, hm2, hd1, hd2⟩ := h
  unfold ordN
  simp only [show (12 : Nat) - 1 = 11 from rfl]
  by_cases hm12 : m = 12
  · subst hm12
    simp only [show (12 : Nat) - 1 = 11 from rfl]
    have := dimN_12 y
    omega
  · have hmle : m ≤ 11 := by omega
    have hstep : mpsN y m = mpsN y (m - 1) + dimN y m := mpsN_step y m hm1
    have hmono : mpsN y m ≤ mpsN y 11 := mpsN_mono y hmle
    omega

theorem ordN_year_start_le (y m d : Nat) (h : ValidYMD y m d) :
    ordN y 1 1 ≤ ordN y m d := by
  obtain ⟨hy, hm1, hm2, hd1, hd2⟩ := h
  unfold ordN
  simp only [show (1 : Nat) - 1 = 0 from rfl]
  have h0 : mpsN y 0 ≤ mpsN y (m - 1) := mpsN_mono y (Nat.zero_le _)
  have he : mpsN y 0 = 0 := rfl
  omega

theorem ordN_year_lt (y y' : Nat) (hy : 1 ≤ y) (h : y < y') :
    ordN y 12 31 < ordN y' 1 1 := by
  have h' : y + 1 ≤ y' := h
  refine Nat.le_induction ?_ ?_ y' h'
  · rw [ordN_year_step y hy]; omega
  · intro n hn ih
    have hvalid : ValidYMD n 1 1 := ⟨by omega, le_rfl, by omega, le_rfl, by
      have := dimN_ge n 1 (le_rfl) (by omega); omega⟩
    have h1 : ordN n 1 1 ≤ ordN n 12 31 := by
      refine ordN_le_year_end n 1 1 hvalid
    rw [ordN_year_step n (by omega)]
    omega

/-- Calendar order implies strict ordinal order for valid dates. -/
theorem ordT_strict_mono (v1 v2 : Nat × Nat × Nat) (h1 : ValidT v1) (h2 : ValidT v2)
    (hlt : ymdLt v1 v2) : ordT v1 < ordT v2 := by
  obtain ⟨y1, m1, d1⟩ := v1
  obtain ⟨y2, m2, d2⟩ := v2
  have h1' : ValidYMD y1 m1 d1 := h1
  have h2' : ValidYMD y2 m2 d2 := h2
  unfold ymdLt at hlt
  dsimp only at hlt
  show ordN y1 m1 d1 < ordN y2 m2 d2
  rcases hlt with hy | ⟨hyeq, hm | ⟨hmeq, hd⟩⟩
  · calc ordN y1 m1 d1 ≤ ordN y1 12 31 := ordN_le_year_end y1 m1 d1 h1'
      _ < ordN y2 1 1 := ordN_year_lt y1 y2 h1'.1 hy
      _ ≤ ordN y2 m2 d2 := ordN_year_start_le y2 m2 d2 h2'
  · subst hyeq
    obtain ⟨hy1, hm11, hm12, hd11, hd12⟩ := h1'
    obtain ⟨_, hm21, hm22, hd21, hd22⟩ := h2'
    have hc1 : ordN y1 m1 d1 ≤ ordN y1 m1 (dimN y1 m1) := by unfold ordN; omega
    have hc2 : ordN y1 (m1 + 1) 1 = ordN y1 m1 (dimN y1 m1) + 1 :=
      ordN_month_step y1 m1 hm11 (by omega)
    have hc3 : ordN y1 (m1 + 1) 1 ≤ ordN y1 m2 1 := by
      unfold ordN
      have : mpsN y1 (m1 + 1 - 1) ≤ mpsN y1 (m2 - 1) := mpsN_mono y1 (by omega)
      omega
    have hc4 : ordN y1 m2 1 ≤ ordN y1 m2 d2 := by unfold ordN; omega
    omega
  · subst hyeq hmeq
    unfold ordN
    omega

theorem ymd_trichotomy (v1 v2 : Nat × Nat × Nat) :
    ymdLt v1 v2 ∨ v1 = v2 ∨ ymdLt v2 v1 := by
  obtain ⟨y1, m1, d1⟩ := v1
  obtain ⟨y2, m2, d2⟩ := v2
  unfold ymdLt
  dsimp only
  rcases Nat.lt_trichotomy y1 y2 with h | rfl | h
  · exact Or.inl (Or.inl h)
  · rcases Nat.lt_trichotomy m1 m2 with h | rfl | h
    · exact Or.inl (Or.inr ⟨rfl, Or.inl h⟩)
    · rcases Nat.lt_trichotomy d1 d2 with h | rfl | h
      · exact Or.inl (Or.inr ⟨rfl, Or.inr ⟨rfl, h⟩⟩)
      · exact Or.inr (Or.inl rfl)
      · exact Or.inr (Or.inr (Or.inr ⟨rfl, Or.inr ⟨rfl, h⟩⟩))
    · exact Or.inr (Or.inr (Or.inr ⟨rfl, Or.inl h⟩))
  · exact Or.inr (Or.inr (Or.inl h))

/-- Any valid date strictly before another valid date reaches it by
iterating the calendar successor; the step count is the true number of
days between them. -/
theorem ymd_reach (v2 : Nat × Nat × Nat) (h2 : ValidT v2) :
    ∀ v1, ValidT v1 → ymdLt v1 v2 → ∃ n, 0 < n ∧ nextYMD^[n] v1 = v2 := by
  suffices H : ∀ k v1, ValidT v1 → ymdLt v1 v2 → ordT v2 - ordT v1 = k →
      ∃ n, 0 < n ∧ nextYMD^[n] v1 = v2 by
    intro v1 h1 hlt
    exact H _ v1 h1 hlt rfl
  intro k
  induction k using Nat.strong_induction_on with
  | _ k ih =>
    intro v1 h1 hlt hk
    have hord := ordT_strict_mono v1 v2 h1 h2 hlt
    have hv' : ValidT (nextYMD v1) := nextYMD_valid h1
    have ho' : ordT (nextYMD v1) = ordT v1 + 1 := ordN_next h1
    by_cases he : nextYMD v1 = v2
    · exact ⟨1, by omega, by rw [Function.iterate_one]; exact he⟩
    · have hlt' : ymdLt (nextYMD v1) v2 := by
        rcases ymd_trichotomy (nextYMD v1) v2 with h | h | h
        · exact h
        · exact absurd h he
        · have := ordT_strict_mono v2 (nextYMD v1) h2 hv' h
          omega
      have hord2 := ordT_strict_mono (nextYMD v1) v2 hv' h2 hlt'
      have hkl : ordT v2 - ordT (nextYMD v1) < k := by omega
      obtain ⟨n, hn, hiter⟩ := ih _ hkl (nextYMD v1) hv' hlt' rfl
      refine ⟨n + 1, by omega, ?_⟩
      rw [Function.iterate_succ_apply]
      exact hiter

/- =========================================================
   Lemmas: assorted small facts feeding the claim theorems
   ========================================================= -/

theorem dateCalc_pos (y m d : Nat) (h : ValidYMD y m d) :
    0 < dateCalc (y : Int) (m : Int) (d : Int) := by
  rw [dateCalc_cast y m d h]
  have hpos : 0 < ordN y m d := by
    obtain ⟨hy, hm1, hm2, hd1, hd2⟩ := h
    unfold ordN
    omega
  exact_mod_cast hpos

theorem dateCalc_invalid (y m d : Int)
    (h : m < 1 ∨ 12 < m ∨ d < 1 ∨ daysInMonth y m < d) : dateCalc y m d = 0 := by
  unfold dateCalc
  by_cases h1 : m < 1 ∨ 12 < m
  · rw [if_pos h1]
  · have h2 : d < 1 ∨ daysInMonth y m < d := by tauto
    rw [if_neg h1, if_pos h2]

theorem foldl_updMax_bounds :
    ∀ (ids : List Int) (m : Int),
      m ≤ ids.foldl updMax m ∧ ∀ i ∈ ids, i ≤ ids.foldl updMax m := by
  intro ids
  induction ids with
  | nil => intro m; exact ⟨le_rfl, by intro i hi; cases hi⟩
  | cons i rest ih =>
    intro m
    have hstep : m ≤ updMax m i ∧ i ≤ updMax m i := by unfold updMax; split <;> omega
    obtain ⟨h1, h2⟩ := ih (updMax m i)
    refine ⟨le_trans hstep.1 h1, ?_⟩
    intro j hj
    rcases List.mem_cons.mp hj with rfl | hj2
    · exact le_trans hstep.2 h1
    · exact h2 j hj2

theorem sync_map_card_id (today : CStr) (ms : List MNode) :
    (syncAutoExpire today ms).map (fun n => n.data.card_id) =
      ms.map fun n => n.data.card_id := by
  unfold syncAutoExpire
  rw [List.map_map]
  exact List.map_congr_left fun n _ => syncOne_card_id _ n

theorem member_set_active_eq {m : Member} (h : m.is_active = 1) :
    ({ m with is_active := 1 } : Member) = m := by
  cases m
  simp only [Member.mk.injEq, and_true, true_and]
  simp only at h
  omega

theorem syncOne_active_of (cur : Int) (n : MNode)
    (h : (syncOne cur n).data.is_active = 1) : n.data.is_active = 1 := by
  unfold syncOne at h
  split at h
  · simp at h
  · exact h

theorem syncOne_type (cur : Int) (n : MNode) :
    (syncOne cur n).data.membership_type = n.data.membership_type := by
  unfold syncOne; split <;> rfl

theorem memberLine_ne_nil (n : MNode) : memberLine n ≠ [] := by
  unfold memberLine
  intro h
  rcases List.append_eq_nil.mp h with ⟨h1, _⟩
  exact intChars_ne_nil _ h1

/-- Loading the serialized form of well-formed records appends exactly
those records. -/
theorem loadStep_parse_all :
    ∀ (ms : List MNode) (acc : List MNode) (loaded maxId : Int),
      (∀ n ∈ ms, parseLine (memberLine n) = some n) →
      acc.length + ms.length ≤ MAX_MEMBERS →
      loadStep (ms.map memberLine) acc loaded maxId =
        (acc ++ ms, loaded + ms.length,
          (ms.map fun n => n.data.card_id).foldl updMax maxId) := by
  intro ms
  induction ms with
  | nil => intro acc loaded maxId _ _; simp [loadStep]
  | cons n rest ih =>
    intro acc loaded maxId hparse hlen
    have hn : parseLine (memberLine n) = some n := hparse n (by simp)
    show loadStep (memberLine n :: rest.map memberLine) acc loaded maxId = _
    simp only [loadStep, if_neg (memberLine_ne_nil n), hn,
      if_neg (show ¬ acc.length ≥ MAX_MEMBERS by simp at hlen ⊢; omega)]
    rw [ih (acc ++ [n]) (loaded + 1) (updMax maxId n.data.card_id)
      (fun q hq => hparse q (by simp [hq])) (by simp at hlen ⊢; omega)]
    rw [Prod.ext_iff, Prod.ext_iff]
    refine ⟨by simp, ?_, by simp⟩
    simp only [List.length_cons]
    push_cast
    omega

/-- A line that fails parsing can be removed from the file without
changing the load result. -/
theorem loadStep_skip_middle {l : CStr} (hskip : parseLine l = none) (post : List CStr) :
    ∀ (pre : List CStr) (acc : List MNode) (loaded maxId : Int),
      loadStep (pre ++ l :: post) acc loaded maxId = loadStep (pre ++ post) acc loaded maxId := by
  intro pre
  induction pre with
  | nil => intro acc loaded maxId; exact loadStep_skip hskip post acc loaded maxId
  | cons q pre ih =>
    intro acc loaded maxId
    by_cases hq : q = []
    · simp only [List.cons_append, loadStep, if_pos hq]
      exact ih acc loaded maxId
    · cases hpq : parseLine q with
      | none =>
        simp only [List.cons_append, loadStep, if_neg hq, hpq]
        exact ih acc loaded maxId
      | some nq =>
        simp only [List.cons_append, loadStep, if_neg hq, hpq]
        split
        · rfl
        · exact ih _ _ _

theorem loadStep_all_skip :
    ∀ (lines : List CStr), (∀ l ∈ lines, parseLine l = none) →
      ∀ (acc : List MNode) (loaded maxId : Int),
        loadStep lines acc loaded maxId = (acc, loaded, maxId) := by
  intro lines
  induction lines with
  | nil => intro _ acc loaded maxId; rfl
  | cons l rest ih =>
    intro h acc loaded maxId
    rw [loadStep_skip (h l (by simp)) rest acc loaded maxId]
    exact ih (fun q hq => h q (by simp [hq])) acc loaded maxId

/- =========================================================
   Claim theorems
   ========================================================= -/

/-- C1 (counterexample): with the destination holding some pre-save
contents and the staging write succeeding but the rename failing,
`saveToFile` reports failure and discards the staging file — but the
destination does NOT retain its pre-save contents: the code removed it
before attempting the rename, so it is gone. -/
theorem claim_C1_counterexample :
    (saveToFile [] ⟨some [['x']], none⟩ false true).2 = 0 ∧
    (saveToFile [] ⟨some [['x']], none⟩ false true).1.dest ≠ some [['x']] ∧
    (saveToFile [] ⟨some [['x']], none⟩ false true).1.dest = none ∧
    (saveToFile [] ⟨some [['x']], none⟩ false true).1.tmp = none := by
  refine ⟨rfl, by decide, rfl, rfl⟩

/-- C1 (amended): if the rename fails, the staging file is discarded
and failure is reported, but the destination has already been removed
and holds nothing; the pre-save destination contents survive only a
failure that occurs before the removal (staging-file open failure), and
a fully successful save replaces the destination with the new lines. -/
theorem claim_C1_amended (ms : List MNode) (fs : FS) :
    (saveToFile ms fs false true).2 = 0 ∧
    (saveToFile ms fs false true).1.tmp = none ∧
    (saveToFile ms fs false true).1.dest = none ∧
    (∀ renameFail, saveToFile ms fs true renameFail = (fs, 0)) ∧
    saveToFile ms fs false false = (⟨some (saveLines ms), none⟩, 1) := by
  unfold saveToFile
  refine ⟨rfl, rfl, rfl, ?_, rfl⟩
  intro renameFail
  rfl

/-- C2: one Synchronizer pass maps each record through `syncOne`: an
active record strictly past its expire day is marked inactive with no
other field changed, an active record with `expire_day` at or after
today's ordinal is untouched, an already-inactive record is untouched,
the list length is preserved, and a second immediate pass changes
nothing. -/
theorem claim_C2 (today : CStr) (ms : List MNode) :
    (syncAutoExpire today ms).length = ms.length ∧
    (∀ i (hi : i < ms.length) (hi' : i < (syncAutoExpire today ms).length),
      ((ms.get ⟨i, hi⟩).data.is_active = 1 →
        calcExpireDays (ms.get ⟨i, hi⟩) < dateToDays today →
        (syncAutoExpire today ms).get ⟨i, hi'⟩ =
          ⟨{ (ms.get ⟨i, hi⟩).data with is_active := 0 }, (ms.get ⟨i, hi⟩).bonus_days⟩) ∧
      ((ms.get ⟨i, hi⟩).data.is_active = 1 →
        dateToDays today ≤ calcExpireDays (ms.get ⟨i, hi⟩) →
        (syncAutoExpire today ms).get ⟨i, hi'⟩ = ms.get ⟨i, hi⟩) ∧
      ((ms.get ⟨i, hi⟩).data.is_active ≠ 1 →
        (syncAutoExpire today ms).get ⟨i, hi'⟩ = ms.get ⟨i, hi⟩)) ∧
    syncAutoExpire today (syncAutoExpire today ms) = syncAutoExpire today ms := by
  refine ⟨syncAutoExpire_length today ms, ?_, syncAutoExpire_idem today ms⟩
  intro i hi hi'
  have hg : (syncAutoExpire today ms).get ⟨i, hi'⟩ =
      syncOne (dateToDays today) (ms.get ⟨i, hi⟩) := by
    unfold syncAutoExpire
    simp [List.get_eq_getElem, List.getElem_map]
  rw [hg]
  exact ⟨fun ha he => syncOne_expired _ _ ha he,
    fun ha he => syncOne_current _ _ ha he,
    fun ha => syncOne_inactive _ _ ha⟩

/-- C2 (witness): the spec's scenario — a monthly record joined
2025-01-01 is still active on 2025-01-31 (remaining 0) and is flipped
inactive by the pass of 2025-02-01 (remaining −1), nothing else
changing. -/
theorem claim_C2_witness :
    exMonthly.data.is_active = 1 ∧
    calcExpireDays exMonthly < dateToDays d20250201 ∧
    (syncAutoExpire d20250201 [exMonthly]).get ⟨0, by decide⟩ =
      ⟨{ exMonthly.data with is_active := 0 }, exMonthly.bonus_days⟩ ∧
    dateToDays d20250131 ≤ calcExpireDays exMonthly ∧
    (syncAutoExpire d20250131 [exMonthly]).get ⟨0, by decide⟩ = exMonthly := by
  refine ⟨by decide, by decide, ?_, by decide, ?_⟩
  · exact ((claim_C2 d20250201 [exMonthly]).2.1 0 (by decide) (by decide)).1
      (by decide) (by decide)
  · exact ((claim_C2 d20250131 [exMonthly]).2.1 0 (by decide) (by decide)).2.1
      (by decide) (by decide)

/-- C5: the sentinel is 0 for an unparseable string and for an
out-of-range month or day (leap-year February included); a structurally
valid Gregorian date (year ≥ 1) gets a strictly positive ordinal; and
the ordinal is strictly monotone along calendar order, with the
difference between two valid dates equal to the exact number of
calendar-successor steps (true day count) between them.  The concrete
leap-year facts of the spec close the statement. -/
theorem claim_C5 :
    (∀ s : CStr, parseYMD s = none → dateToDays s = 0) ∧
    (∀ y m d : Int, (m < 1 ∨ 12 < m ∨ d < 1 ∨ daysInMonth y m < d) → dateCalc y m d = 0) ∧
    (∀ y m d : Nat, ValidYMD y m d → 0 < dateCalc (y : Int) (m : Int) (d : Int)) ∧
    (∀ v1 v2 : Nat × Nat × Nat, ValidT v1 → ValidT v2 → ymdLt v1 v2 →
      dateCalcT v1 < dateCalcT v2 ∧
      ∃ n : Nat, 0 < n ∧ nextYMD^[n] v1 = v2 ∧ dateCalcT v2 = dateCalcT v1 + n) ∧
    dateToDays d20240229 ≠ 0 ∧ dateToDays d20230229 = 0 := by
  have hcast : ∀ v : Nat × Nat × Nat, ValidT v → dateCalcT v = ((ordT v : Nat) : Int) := by
    intro v hv
    obtain ⟨y, m, d⟩ := v
    exact dateCalc_cast y m d hv
  refine ⟨?_, ?_, ?_, ?_, by decide, by decide⟩
  · intro s h
    unfold dateToDays
    rw [h]
  · intro y m d h
    exact dateCalc_invalid y m d h
  · intro y m d h
    exact dateCalc_pos y m d h
  · intro v1 v2 h1 h2 hlt
    have hc1 := hcast v1 h1
    have hc2 := hcast v2 h2
    constructor
    · rw [hc1, hc2]
      exact_mod_cast ordT_strict_mono v1 v2 h1 h2 hlt
    · obtain ⟨n, hn, hiter⟩ := ymd_reach v2 h2 v1 h1 hlt
      refine ⟨n, hn, hiter, ?_⟩
      have hstep := (ordN_iterate h1 n).2
      rw [hiter] at hstep
      rw [hc1, hc2, hstep]
      push_cast
      ring

/-- C5 (witness): 2024-02-28 and 2024-03-01 are valid, calendar-ordered
dates; the ordinal strictly increases between them and the difference
is the true day count (2 days across the leap day). -/
theorem claim_C5_witness :
    ValidT (2024, 2, 28) ∧ ValidT (2024, 3, 1) ∧ ymdLt (2024, 2, 28) (2024, 3, 1) ∧
    dateCalcT (2024, 2, 28) < dateCalcT (2024, 3, 1) ∧
    (∃ n : Nat, 0 < n ∧ nextYMD^[n] (2024, 2, 28) = (2024, 3, 1) ∧
      dateCalcT (2024, 3, 1) = dateCalcT (2024, 2, 28) + n) ∧
    parseYMD badDateStr = none ∧ dateToDays badDateStr = 0 := by
  refine ⟨by decide, by decide, by decide, ?_, ?_, by decide, ?_⟩
  · exact (claim_C5.2.2.2.1 (2024, 2, 28) (2024, 3, 1) (by decide) (by decide) (by decide)).1
  · exact (claim_C5.2.2.2.1 (2024, 2, 28) (2024, 3, 1) (by decide) (by decide) (by decide)).2
  · exact claim_C5.1 badDateStr (by decide)

theorem sync_traces (today : CStr) (ms : List MNode) :
    TracesTo (syncAutoExpire today ms) ms := by
  intro q hq
  obtain ⟨r, hr, rfl⟩ := List.mem_map.mp hq
  exact ⟨r, hr, syncOne_card_id _ r, syncOne_type _ r, syncOne_active_of _ r⟩

theorem traces_refl (ms : List MNode) : TracesTo ms ms :=
  fun q hq => ⟨q, hq, rfl, rfl, fun h => h⟩

/-- C3: on a synchronization-fixpoint store, renewing an Active-Current
record (active, expire day not yet passed) with the same type extends
`bonus_days` by exactly the type's duration, leaving `join_date`,
`membership_type`, `is_active` and every other record untouched; a
request for a different type is rejected and the store is returned
entirely unchanged. -/
theorem claim_C3 (today : CStr) (id : Int) (newType : CStr) (newDuration : Int)
    (st : Store) (p : MNode)
    (hsync : syncAutoExpire today st.members = st.members)
    (hfind : findByCardID id st.members = some p)
    (hactive : p.data.is_active = 1)
    (hcur : dateToDays today ≤ calcExpireDays p)
    (hdur : newDuration = getDurationDays newType) :
    (newType ≠ p.data.membership_type →
      renewMember today id newType newDuration st = (st, RenewResult.typeMismatch)) ∧
    (newType = p.data.membership_type →
      ∃ pre post, st.members = pre ++ p :: post ∧ (∀ q ∈ pre, q.data.card_id ≠ id) ∧
        renewMember today id newType newDuration st =
          ({ st with members :=
              pre ++ (⟨p.data, p.bonus_days + getDurationDays newType⟩ : MNode) :: post },
            RenewResult.extended)) := by
  have hcond : ¬ (p.data.is_active = 0 ∨ calcExpireDays p < dateToDays today) := by
    rintro (h | h) <;> omega
  constructor
  · intro hne
    simp only [renewMember, hsync, hfind]
    rw [if_neg hcond, if_pos hne]
  · intro heq
    obtain ⟨pre, post, hms, hpre, hpid⟩ := findByCardID_split hfind
    refine ⟨pre, post, hms, hpre, ?_⟩
    simp only [renewMember, hsync, hfind]
    rw [if_neg hcond, if_neg (fun hne => hne heq)]
    rw [hms, updateFirst_split id _ pre p post hpre hpid]
    simp only [member_set_active_eq hactive, hdur]

/-- C3 (witness): on the concrete fixpoint store, a same-type (monthly)
renewal of the active-current member 1003 yields exactly a 30-day bonus
extension, and a yearly request is rejected with the store unchanged. -/
theorem claim_C3_witness :
    renewMember d20250610 1003 typeYearly 365 stC9 = (stC9, RenewResult.typeMismatch) ∧
    (∃ pre post, stC9.members = pre ++ exCurrent :: post ∧
      (∀ q ∈ pre, q.data.card_id ≠ 1003) ∧
      renewMember d20250610 1003 typeMonthly 30 stC9 =
        ({ stC9 with members :=
            pre ++ (⟨exCurrent.data, exCurrent.bonus_days + getDurationDays typeMonthly⟩ :
              MNode) :: post },
          RenewResult.extended)) := by
  constructor
  · exact (claim_C3 d20250610 1003 typeYearly 365 stC9 exCurrent (by decide) (by decide)
      (by decide) (by decide) (by decide)).1 (by decide)
  · exact (claim_C3 d20250610 1003 typeMonthly 30 stC9 exCurrent (by decide) (by decide)
      (by decide) (by decide) (by decide)).2 rfl

/-- C9: on a synchronization-fixpoint store, delete refuses any record
whose `is_active` is 1 at the eligibility check (whatever its remaining
days) and returns the store unchanged; it unlinks an inactive record,
decrementing the count by one; and an unknown card id is reported
not-found with no change. -/
theorem claim_C9 (today : CStr) (id : Int) (st : Store)
    (hsync : syncAutoExpire today st.members = st.members) :
    (∀ p, findByCardID id st.members = some p → p.data.is_active = 1 →
      deleteExpiredMember today id st = (st, DeleteResult.stillActive)) ∧
    (∀ p, findByCardID id st.members = some p → p.data.is_active = 0 →
      ∃ pre post, st.members = pre ++ p :: post ∧ (∀ q ∈ pre, q.data.card_id ≠ id) ∧
        deleteExpiredMember today id st =
          ({ st with members := pre ++ post }, DeleteResult.deleted) ∧
        (pre ++ post).length + 1 = st.members.length) ∧
    (findByCardID id st.members = none →
      deleteExpiredMember today id st = (st, DeleteResult.notFound)) := by
  refine ⟨?_, ?_, ?_⟩
  · intro p hf ha
    simp only [deleteExpiredMember, hsync, hf]
    rw [if_pos ha]
  · intro p hf ha
    obtain ⟨pre, post, hms, hpre, hpid⟩ := findByCardID_split hf
    refine ⟨pre, post, hms, hpre, ?_, ?_⟩
    · simp only [deleteExpiredMember, hsync, hf]
      rw [if_neg (by omega), hms, removeFirst_split id pre p post hpre hpid]
    · rw [hms]
      simp
      omega
  · intro hf
    simp only [deleteExpiredMember, hsync, hf]

/-- C4: a record in the Expired-or-Inactive posture at renewal time
(inactive, or expire day strictly before today) is reactivated by a
renewal of any of the three types: `join_date := today`,
`bonus_days := 0`, `membership_type :=` the requested type,
`is_active := 1`, with the rest of the store untouched.  Moreover this
is the only path that turns an inactive record active or changes a
record's type: the Synchronizer, phone update, manual deactivation,
delete, the non-reactivating renewal branches (on stores whose activity
flags are 0/1), and add all leave every surviving record's type
unchanged and never make an inactive record active. -/
theorem claim_C4 (today : CStr) (id : Int) (newType : CStr) (newDuration : Int)
    (st : Store) (p : MNode)
    (hfind : findByCardID id (syncAutoExpire today st.members) = some p)
    (hexp : p.data.is_active = 0 ∨ calcExpireDays p < dateToDays today)
    (_htype : newType = typeMonthly ∨ newType = typeQuarterly ∨ newType = typeYearly) :
    (∃ pre post, syncAutoExpire today st.members = pre ++ p :: post ∧
      (∀ q ∈ pre, q.data.card_id ≠ id) ∧
      renewMember today id newType newDuration st =
        ({ st with members := pre ++ reactNode today newType p :: post },
          RenewResult.reactivated)) ∧
    (∀ today2 ms2, TracesTo (syncAutoExpire today2 ms2) ms2) ∧
    (∀ id2 ph st2, TracesTo ((updateMemberPhone id2 ph st2).1.members) st2.members) ∧
    (∀ id2 st2, TracesTo ((updateMemberStatus id2 st2).1.members) st2.members) ∧
    (∀ today2 id2 st2 q, q ∈ (deleteExpiredMember today2 id2 st2).1.members →
      q ∈ syncAutoExpire today2 st2.members) ∧
    (∀ today2 id2 t2 dur2 st2,
      (∀ r ∈ st2.members, r.data.is_active = 0 ∨ r.data.is_active = 1) →
      (renewMember today2 id2 t2 dur2 st2).2 ≠ RenewResult.reactivated →
      TracesTo ((renewMember today2 id2 t2 dur2 st2).1.members) st2.members) ∧
    (∀ nm g a ph td mt st2,
      (addMember nm g a ph td mt st2).1.members = st2.members ∨
      (addMember nm g a ph td mt st2).1.members =
        st2.members ++ [⟨⟨st2.next_card_id, nm, g, a, ph, td, mt, 1⟩, 0⟩]) := by
  refine ⟨?_, fun today2 ms2 => sync_traces today2 ms2, ?_, ?_, ?_, ?_, ?_⟩
  · obtain ⟨pre, post, hms, hpre, hpid⟩ := findByCardID_split hfind
    refine ⟨pre, post, hms, hpre, ?_⟩
    simp only [renewMember, hfind]
    rw [if_pos hexp, hms, updateFirst_split id _ pre p post hpre hpid]
    rfl
  · intro id2 ph st2
    cases hf : findByCardID id2 st2.members with
    | none => simp only [updateMemberPhone, hf]; exact traces_refl _
    | some p2 =>
      simp only [updateMemberPhone, hf]
      intro q hq
      rcases updateFirst_sub id2 _ st2.members q hq with hin | ⟨r, hr, rfl⟩
      · exact traces_refl _ q hin
      · exact ⟨r, hr, rfl, rfl, fun h => h⟩
  · intro id2 st2
    cases hf : findByCardID id2 st2.members with
    | none => simp only [updateMemberStatus, hf]; exact traces_refl _
    | some p2 =>
      simp only [updateMemberStatus, hf]
      by_cases hact : p2.data.is_active = 0
      · rw [if_pos hact]
        exact traces_refl _
      · rw [if_neg hact]
        intro q hq
        rcases updateFirst_sub id2 _ st2.members q hq with hin | ⟨r, hr, rfl⟩
        · exact traces_refl _ q hin
        · refine ⟨r, hr, rfl, rfl, fun h => ?_⟩
          simp at h
  · intro today2 id2 st2 q
    cases hf : findByCardID id2 (syncAutoExpire today2 st2.members) with
    | none =>
      simp only [deleteExpiredMember, hf]
      intro hq; exact hq
    | some p2 =>
      simp only [deleteExpiredMember, hf]
      by_cases hact : p2.data.is_active = 1
      · rw [if_pos hact]
        intro hq; exact hq
      · rw [if_neg hact]
        intro hq
        exact removeFirst_sub id2 _ q hq
  · intro today2 id2 t2 dur2 st2 hwf
    cases hf : findByCardID id2 (syncAutoExpire today2 st2.members) with
    | none =>
      simp only [renewMember, hf]
      intro _
      exact sync_traces today2 st2.members
    | some p2 =>
      simp only [renewMember, hf]
      by_cases hc : p2.data.is_active = 0 ∨ calcExpireDays p2 < dateToDays today2
      · rw [if_pos hc]
        intro hres
        exact absurd rfl hres
      · rw [if_neg hc]
        by_cases hne : t2 ≠ p2.data.membership_type
        · rw [if_pos hne]
          intro _
          exact sync_traces today2 st2.members
        · rw [if_neg hne]
          intro _
          obtain ⟨pre, post, hms, hpre, hpid⟩ := findByCardID_split hf
          rw [hms, updateFirst_split id2 _ pre p2 post hpre hpid]
          intro q hq
          rcases List.mem_append.mp hq with hqp | hqc
          · exact sync_traces today2 st2.members q (by rw [hms]; exact List.mem_append_left _ hqp)
          · rcases List.mem_cons.mp hqc with rfl | hqpost
            · have hp2mem : p2 ∈ syncAutoExpire today2 st2.members := by
                rw [hms]; exact List.mem_append_right _ (by simp)
              obtain ⟨r0, hr0, hr0e⟩ := List.mem_map.mp hp2mem
              have hp2ne : p2.data.is_active ≠ 0 := fun h => hc (Or.inl h)
              have hr0act : r0.data.is_active = 1 := by
                rcases hwf r0 hr0 with h0 | h1
                · exfalso
                  have hid : syncOne (dateToDays today2) r0 = r0 :=
                    syncOne_inactive _ r0 (by omega)
                  rw [hid] at hr0e
                  rw [hr0e] at h0
                  exact hp2ne h0
                · exact h1
              refine ⟨r0, hr0, ?_, ?_, fun _ => hr0act⟩
              · show p2.data.card_id = r0.data.card_id
                rw [← hr0e]
                exact syncOne_card_id _ r0
              · show p2.data.membership_type = r0.data.membership_type
                rw [← hr0e]
                exact syncOne_type _ r0
            · exact sync_traces today2 st2.members q
                (by rw [hms]; exact List.mem_append_right _ (List.mem_cons_of_mem _ hqpost))
  · intro nm g a ph td mt st2
    unfold addMember
    by_cases hfull : st2.members.length ≥ MAX_MEMBERS
    · rw [if_pos hfull]
      exact Or.inl rfl
    · rw [if_neg hfull]
      exact Or.inr rfl

/-- C4 (witness): the spec's scenario — the manually deactivated member
1002 renewed with yearly on 2025-03-01 gets `join_date := 2025-03-01`,
`bonus_days := 0`, `membership_type := yearly`, `is_active := 1`. -/
theorem claim_C4_witness :
    findByCardID 1002 (syncAutoExpire d20250301 [exInactive]) = some exInactive ∧
    exInactive.data.is_active = 0 ∧
    (∃ pre post, syncAutoExpire d20250301 [exInactive] = pre ++ exInactive :: post ∧
      (∀ q ∈ pre, q.data.card_id ≠ 1002) ∧
      renewMember d20250301 1002 typeYearly 365 ⟨[exInactive], 1003⟩ =
        ({ members := pre ++ reactNode d20250301 typeYearly exInactive :: post,
           next_card_id := 1003 }, RenewResult.reactivated)) := by
  refine ⟨by decide, by decide, ?_⟩
  exact (claim_C4 d20250301 1002 typeYearly 365 ⟨[exInactive], 1003⟩ exInactive
    (by decide) (Or.inl (by decide)) (Or.inr (Or.inr rfl))).1

/-- C9 (witness): on the concrete fixpoint store, deleting the active
member 1003 fails with a policy violation and changes nothing, deleting
the inactive member 1002 removes exactly that record, and an unknown id
is not-found. -/
theorem claim_C9_witness :
    deleteExpiredMember d20250610 1003 stC9 = (stC9, DeleteResult.stillActive) ∧
    (∃ pre post, stC9.members = pre ++ exInactive :: post ∧
      (∀ q ∈ pre, q.data.card_id ≠ 1002) ∧
      deleteExpiredMember d20250610 1002 stC9 =
        ({ stC9 with members := pre ++ post }, DeleteResult.deleted) ∧
      (pre ++ post).length + 1 = stC9.members.length) ∧
    deleteExpiredMember d20250610 9999 stC9 = (stC9, DeleteResult.notFound) :=
  ⟨(claim_C9 d20250610 1003 stC9 (by decide)).1 exCurrent (by decide) (by decide),
   (claim_C9 d20250610 1002 stC9 (by decide)).2.1 exInactive (by decide) (by decide),
   (claim_C9 d20250610 9999 stC9 (by decide)).2.2 (by decide)⟩

/-- C6 (counterexample): a store reachable through the core API — one
`addMember` with the console-accepted name `a|b` — saves and loads back
EMPTY: the delimiter inside the name corrupts its line, the line fails
validation on reload and is dropped, so the round trip does not
preserve the records even modulo synchronization. -/
theorem claim_C6_counterexample :
    ((addMember nameWithPipe maleStr 25 phoneEx d20250601 typeMonthly ⟨[], 1001⟩).1.members).length
      = 1 ∧
    (loadFromFile d20250601
      (some (saveLines
        (addMember nameWithPipe maleStr 25 phoneEx d20250601 typeMonthly ⟨[], 1001⟩).1.members))
      ⟨[], 1001⟩).1.members = [] ∧
    syncAutoExpire d20250601
      (addMember nameWithPipe maleStr 25 phoneEx d20250601 typeMonthly ⟨[], 1001⟩).1.members
      ≠ [] := by
  decide

/-- C6 (amended): for a store of well-formed records — in particular
with names that are nonempty, at most 29 characters, and free of the
`|` delimiter and line terminators, which the add path does not itself
enforce — saving and loading back yields exactly the same records, with
the same fields (including `bonus_days`) in the same order, except that
the post-load synchronization pass may deactivate records whose dates
have elapsed; the returned count is the number of records. -/
theorem claim_C6_amended (today : CStr) (st st0 : Store)
    (hwf : ∀ n ∈ st.members, WFnode n) (hlen : st.members.length ≤ MAX_MEMBERS) :
    (loadFromFile today (some (saveLines st.members)) st0).1.members =
      syncAutoExpire today st.members ∧
    (loadFromFile today (some (saveLines st.members)) st0).2 = (st.members.length : Int) := by
  have hparse : ∀ n ∈ st.members, parseLine (memberLine n) = some n :=
    fun n hn => parseLine_memberLine n (hwf n hn)
  have hstep := loadStep_parse_all st.members [] 0 1000 hparse (by simpa using hlen)
  simp only [loadFromFile, saveLines]
  rw [hstep]
  constructor
  · simp
  · simp

/-- C6 (witness): the concrete two-record fixpoint store round-trips
exactly (its names are delimiter-free). -/
theorem claim_C6_witness :
    (∀ n ∈ stC9.members, WFnode n) ∧ stC9.members.length ≤ MAX_MEMBERS ∧
    (loadFromFile d20250610 (some (saveLines stC9.members)) ⟨[], 1001⟩).1.members =
      syncAutoExpire d20250610 stC9.members ∧
    (loadFromFile d20250610 (some (saveLines stC9.members)) ⟨[], 1001⟩).2 =
      (stC9.members.length : Int) := by
  refine ⟨by decide, by decide, ?_, ?_⟩
  · exact (claim_C6_amended d20250610 stC9 ⟨[], 1001⟩ (by decide) (by decide)).1
  · exact (claim_C6_amended d20250610 stC9 ⟨[], 1001⟩ (by decide) (by decide)).2

/-- C7 (counterexample): a file whose single (valid) record has card id
5 loads with maximum observed id 5, yet the next-assigned id becomes
1001, not 5 + 1 = 6 — the counter is seeded at 1000, so the claim's
"one greater than the maximum observed id" fails whenever every loaded
id is at most 1000. -/
theorem claim_C7_counterexample :
    (loadFromFile d20250601 (some [line5]) ⟨[], 1001⟩).2 = 1 ∧
    ((loadFromFile d20250601 (some [line5]) ⟨[], 1001⟩).1.members.map
      fun n => n.data.card_id) = [5] ∧
    (loadFromFile d20250601 (some [line5]) ⟨[], 1001⟩).1.next_card_id = 1001 ∧
    (1001 : Int) ≠ 5 + 1 := by
  decide

/-- C7 (amended): after a load, the next-assigned card id equals one
greater than the maximum of the seed 1000 and the loaded records' card
ids (so it is 1001 whenever every loaded id is ≤ 1000); consequently it
still strictly exceeds every loaded id, which is the distinctness the
claim wants across restarts. -/
theorem claim_C7_amended (today : CStr) (lines : List CStr) (st : Store) :
    (loadFromFile today (some lines) st).1.next_card_id =
      (((loadFromFile today (some lines) st).1.members.map
        fun n => n.data.card_id).foldl updMax 1000) + 1 ∧
    ∀ q ∈ (loadFromFile today (some lines) st).1.members,
      q.data.card_id < (loadFromFile today (some lines) st).1.next_card_id := by
  obtain ⟨dl, h1, _, _⟩ := loadStep_delta lines [] 0 1000
  simp only [loadFromFile]
  rw [h1]
  dsimp only
  simp only [List.nil_append]
  constructor
  · rw [sync_map_card_id]
  · intro q hq
    obtain ⟨r, hr, rfl⟩ := List.mem_map.mp hq
    have hb := (foldl_updMax_bounds (dl.map fun n => n.data.card_id) 1000).2 _
      (List.mem_map_of_mem _ hr)
    rw [syncOne_card_id]
    omega

/-- C7 (witness): on the single-record file with card id 5, the
next-assigned id is one past the running maximum (1001, since the seed
1000 dominates), and it strictly exceeds the loaded record's id. -/
theorem claim_C7_witness :
    (loadFromFile d20250601 (some [line5]) ⟨[], 1001⟩).1.next_card_id =
      (((loadFromFile d20250601 (some [line5]) ⟨[], 1001⟩).1.members.map
        fun n => n.data.card_id).foldl updMax 1000) + 1 ∧
    (⟨⟨5, ['a', 'b'], maleStr, 25, phoneEx, d20250101, typeMonthly, 0⟩, 0⟩ : MNode) ∈
      (loadFromFile d20250601 (some [line5]) ⟨[], 1001⟩).1.members ∧
    (⟨⟨5, ['a', 'b'], maleStr, 25, phoneEx, d20250101, typeMonthly, 0⟩, 0⟩ :
        MNode).data.card_id <
      (loadFromFile d20250601 (some [line5]) ⟨[], 1001⟩).1.next_card_id := by
  refine ⟨(claim_C7_amended d20250601 [line5] ⟨[], 1001⟩).1, by decide, ?_⟩
  exact (claim_C7_amended d20250601 [line5] ⟨[], 1001⟩).2 _ (by decide)

/-- C8: a line accepted by the loader passed every per-field check (so
a line failing any check contributes no record); a failing line can be
deleted from the file without changing the load result (skipping is
non-fatal); the returned count equals the number of records built; a
missing file returns the untouched store and 0; and a file with no
valid line loads an empty store with count 0. -/
theorem claim_C8 :
    (∀ (l : CStr) (node : MNode), parseLine l = some node →
      0 < node.data.card_id ∧ isValidAge node.data.age = true ∧
      isValidPhone node.data.phone = true ∧
      (node.data.gender = maleStr ∨ node.data.gender = femaleStr) ∧
      getDurationDays node.data.membership_type ≠ 0 ∧
      (node.data.is_active = 0 ∨ node.data.is_active = 1) ∧
      dateToDays node.data.join_date ≠ 0) ∧
    (∀ today (pre : List CStr) (l : CStr) (post : List CStr) st, parseLine l = none →
      loadFromFile today (some (pre ++ l :: post)) st =
        loadFromFile today (some (pre ++ post)) st) ∧
    (∀ today lines st, (loadFromFile today (some lines) st).2 =
      ((loadFromFile today (some lines) st).1.members.length : Int)) ∧
    (∀ today st, loadFromFile today none st = (st, 0)) ∧
    (∀ today lines st, (∀ l ∈ lines, parseLine l = none) →
      loadFromFile today (some lines) st =
        ({ members := [], next_card_id := 1001 }, 0)) := by
  refine ⟨?_, ?_, ?_, ?_, ?_⟩
  · intro l node h
    unfold parseLine at h
    split at h
    · dsimp only at h
      split_ifs at h with h1 h2 h3 h4 h5 h6 h7
      cases h
      dsimp only
      exact ⟨by omega, h2, h3, h4, h5, h6, h7⟩
    · cases h
  · intro today pre l post st hskip
    simp only [loadFromFile]
    rw [loadStep_skip_middle hskip post pre [] 0 1000]
  · intro today lines st
    obtain ⟨dl, h1, _, _⟩ := loadStep_delta lines [] 0 1000
    simp only [loadFromFile]
    rw [h1]
    dsimp only
    rw [syncAutoExpire_length]
    simp
  · intro today st
    rfl
  · intro today lines st hall
    simp only [loadFromFile]
    rw [loadStep_all_skip lines hall [] 0 1000]
    norm_num [syncAutoExpire]

/-- C8 (witness): the spec's scenario — a line with age 15 fails the
age check, is skipped without aborting the load of the rest of the
file, and a file containing only that line yields count 0 and an empty
store. -/
theorem claim_C8_witness :
    parseLine line15 = none ∧
    loadFromFile d20250601 (some [line15, line5]) ⟨[], 1001⟩ =
      loadFromFile d20250601 (some [line5]) ⟨[], 1001⟩ ∧
    (loadFromFile d20250601 (some [line15]) ⟨[], 1001⟩).2 = 0 ∧
    (loadFromFile d20250601 (some [line15]) ⟨[], 1001⟩).1.members = [] := by
  refine ⟨by decide, ?_, ?_, by decide⟩
  · exact claim_C8.2.1 d20250601 [] line15 [line5] ⟨[], 1001⟩ (by decide)
  · have h := claim_C8.2.2.2.2 d20250601 [line15] ⟨[], 1001⟩ (by decide)
    rw [h]

/-- C10: `addMember` rejects, mutating nothing, whenever the store is
at `MAX_MEMBERS`, and below capacity appends exactly one record, never
exceeding `MAX_MEMBERS`; a load never builds more than `MAX_MEMBERS`
records, and once the accumulator is full the load loop stops at the
next valid line, dropping it and the rest of the file. -/
theorem claim_C10 :
    (∀ nm g a ph td mt (st : Store), MAX_MEMBERS ≤ st.members.length →
      addMember nm g a ph td mt st = (st, none)) ∧
    (∀ nm g a ph td mt (st : Store), st.members.length < MAX_MEMBERS →
      (addMember nm g a ph td mt st).1.members =
        st.members ++ [⟨⟨st.next_card_id, nm, g, a, ph, td, mt, 1⟩, 0⟩] ∧
      (addMember nm g a ph td mt st).1.members.length ≤ MAX_MEMBERS) ∧
    (∀ today lines (st : Store),
      ((loadFromFile today (some lines) st).1.members).length ≤ MAX_MEMBERS) ∧
    (∀ (l : CStr) (node : MNode) rest acc loaded maxId, l ≠ [] →
      parseLine l = some node → MAX_MEMBERS ≤ acc.length →
      loadStep (l :: rest) acc loaded maxId = (acc, loaded, maxId)) := by
  refine ⟨?_, ?_, ?_, ?_⟩
  · intro nm g a ph td mt st h
    unfold addMember
    rw [if_pos h]
  · intro nm g a ph td mt st h
    unfold addMember
    rw [if_neg (by omega)]
    refine ⟨rfl, ?_⟩
    simp only [List.length_append, List.length_cons, List.length_nil]
    omega
  · intro today lines st
    obtain ⟨dl, h1, h2, _⟩ := loadStep_delta lines [] 0 1000
    simp only [loadFromFile]
    rw [h1]
    dsimp only
    rw [syncAutoExpire_length]
    have hb := h2 (by simp)
    simp at hb ⊢
    omega
  · intro l node rest acc loaded maxId hl hp hfull
    exact loadStep_stop hl hp rest acc loaded maxId hfull

/-- C10 (witness): at the 100-record ceiling `addMember` rejects and
returns the store unchanged, on an empty store it appends the one new
record, and the full load loop drops a further valid line. -/
theorem claim_C10_witness :
    MAX_MEMBERS ≤ stFull.members.length ∧
    addMember ['x'] maleStr 30 phoneEx d20250601 typeMonthly stFull = (stFull, none) ∧
    (addMember ['x'] maleStr 30 phoneEx d20250601 typeMonthly ⟨[], 1001⟩).1.members =
      [⟨⟨1001, ['x'], maleStr, 30, phoneEx, d20250601, typeMonthly, 1⟩, 0⟩] ∧
    parseLine line5 = some node5 ∧
    loadStep [line5] stFull.members 0 1000 = (stFull.members, 0, 1000) := by
  refine ⟨by decide, ?_, ?_, by decide, ?_⟩
  · exact claim_C10.1 ['x'] maleStr 30 phoneEx d20250601 typeMonthly stFull (by decide)
  · exact (claim_C10.2.1 ['x'] maleStr 30 phoneEx d20250601 typeMonthly ⟨[], 1001⟩
      (by decide)).1
  · exact claim_C10.2.2.2 line5 node5 [] stFull.members 0 1000 (by decide) (by decide)
      (by decide)

end Gym

